import Mathlib

/-!
Verification of the parallel execution core of the Roo-Code repository.

This file gives a shallow embedding, in Lean, of the components of
`src/core/parallel`: the `RateLimiter` rolling window, the `TaskGraph`
construction and cycle detection, the three scheduling strategies, the
`OrchestrationScheduler` dispatch loop, the `ParallelInstanceManager`
worker pool, the `ReviewCoordinator` reviewer registry, the
`WorkspaceAnalyzer` conflict checker, and the `IPCChannel` message
queueing.  Pure functions are translated to Lean functions; the stateful
code is translated to explicit state passing; JavaScript `Map` objects
become insertion-ordered association lists; fallible code returns
`Except`.  Theorems about these definitions follow after all the
definitions.
-/

/-- JS `Map.set` on an insertion-ordered association list: when the key is
already present its value is replaced in place, otherwise the binding is
appended at the end (JS maps preserve insertion order). -/
def assocSet {β : Type} (l : List (String × β)) (k : String) (v : β) : List (String × β) :=
  if (l.lookup k).isSome then l.map (fun p => if p.1 = k then (k, v) else p) else l ++ [(k, v)]

/-- JS `Set.add`: append the element unless it is already present
(JS sets preserve insertion order and deduplicate). -/
def insertUniq (l : List String) (x : String) : List String :=
  if x ∈ l then l else l ++ [x]

/-! ## RateLimiter (`RateLimiter.ts`)

The per-provider request history is a list of per-second buckets.
Timestamps and counts are JS numbers, modelled as `Int` (`Math.floor` is
`Int.fdiv`). -/

/-- Record of requests for a specific second (source `RequestRecord`). -/
structure RequestRecord where
  timestamp : Int
  count : Int
deriving Repr, DecidableEq

namespace RateLimiter

/-- Add `k` to the first record whose timestamp is `cs`
(source: `history[existingIndex].count += requestCount` after `findIndex`). -/
def bumpFirst (cs : Int) (k : Int) : List RequestRecord → List RequestRecord
  | [] => []
  | r :: rs =>
    if r.timestamp = cs then { r with count := r.count + k } :: rs
    else r :: bumpFirst cs k rs

/-- Source `RateLimiter.track(provider, requestCount)`, acting on one
provider's history: bucket `now` to the current second; add to an
existing record for that second, or push a fresh one. -/
def track (history : List RequestRecord) (now : Int) (requestCount : Int) : List RequestRecord :=
  let currentSecond := now.fdiv 1000 * 1000
  if history.any (fun r => r.timestamp = currentSecond) then
    bumpFirst currentSecond requestCount history
  else
    history ++ [{ timestamp := currentSecond, count := requestCount }]

/-- Source `RateLimiter.getCurrentRPM(provider)`: sum the records of the
last 60 seconds (strictly newer than `now - 60000`). -/
def getCurrentRPM (history : List RequestRecord) (now : Int) : Int :=
  if history.length = 0 then 0
  else ((history.filter (fun r => r.timestamp > now - 60000)).map (fun r => r.count)).sum

end RateLimiter

/-! ## Task model and TaskGraph (`OrchestrationScheduler.ts`) -/

/-- Source `TaskWithDependencies`. -/
structure TaskWithDependencies where
  id : String
  dependencies : List String
  instructions : String
  workspacePath : String
  workerType : Option String := none
  estimatedRPM : Option Nat := none
deriving Repr, DecidableEq

/-- Source `TaskNode`.  `dependencies` and `dependents` are JS `Set`s:
insertion-ordered, deduplicated string lists. -/
structure TaskNode where
  id : String
  dependencies : List String
  dependents : List String
  completed : Bool
  instructions : String
  workspacePath : String
  workerType : Option String := none
  estimatedRPM : Option Nat := none
deriving Repr, DecidableEq

/-- Source `TaskGraph`: its `nodes` map, as an insertion-ordered
association list. -/
structure TaskGraph where
  nodes : List (String × TaskNode)
deriving Repr, DecidableEq

/-- First pass of `TaskGraph.buildGraph`: create a node for every task
(`new Set(task.dependencies)` deduplicates the dependency list). -/
def mkNode (t : TaskWithDependencies) : TaskNode :=
  { id := t.id, dependencies := t.dependencies.foldl insertUniq [],
    dependents := [], completed := false,
    instructions := t.instructions, workspacePath := t.workspacePath,
    workerType := t.workerType, estimatedRPM := t.estimatedRPM }

/-- First pass of `TaskGraph.buildGraph` over the whole task list. -/
def buildNodes (tasks : List TaskWithDependencies) : List (String × TaskNode) :=
  tasks.foldl (fun acc t => assocSet acc t.id (mkNode t)) []

/-- Add `dependentId` to the `dependents` set of the node `depId`
(source: `depNode.dependents.add(node.id)`). -/
def addDependentTo (nodes : List (String × TaskNode)) (depId dependentId : String) :
    List (String × TaskNode) :=
  nodes.map (fun p =>
    if p.1 = depId then (p.1, { p.2 with dependents := insertUniq p.2.dependents dependentId })
    else p)

/-- Second pass of `TaskGraph.buildGraph`, inner loop: for each dependency
of `nodeId`, fail when the dependency is absent, otherwise record the
dependent edge. -/
def addDependentsFor (nodeId : String) :
    List String → List (String × TaskNode) → Except String (List (String × TaskNode))
  | [], nodes => .ok nodes
  | depId :: rest, nodes =>
    match nodes.lookup depId with
    | none => .error ("Task " ++ nodeId ++ " depends on non-existent task " ++ depId)
    | some _ => addDependentsFor nodeId rest (addDependentTo nodes depId nodeId)

/-- Second pass of `TaskGraph.buildGraph`, outer loop over all nodes. -/
def addAllDependents :
    List (String × List String) → List (String × TaskNode) → Except String (List (String × TaskNode))
  | [], nodes => .ok nodes
  | (nodeId, deps) :: rest, nodes =>
    match addDependentsFor nodeId deps nodes with
    | .error e => .error e
    | .ok nodes2 => addAllDependents rest nodes2

/-- Source `TaskGraph.buildGraph`: both passes. -/
def buildGraph (tasks : List TaskWithDependencies) : Except String (List (String × TaskNode)) :=
  let nodes := buildNodes tasks
  addAllDependents (nodes.map (fun p => (p.1, p.2.dependencies))) nodes

/-- Failure values of the depth-first cycle check.  `nofuel` is the
artefact of the explicit recursion bound; theorems below show it is
unreachable at the bound used by `taskGraphNew`. -/
inductive DfsErr
  | cycle (path : List String)
  | nofuel
deriving Repr, DecidableEq

/-- Dependency list of a node (`this.nodes.get(nodeId)!.dependencies`;
the source only reaches this on ids present in the map). -/
def depsOf (nodes : List (String × TaskNode)) (nodeId : String) : List String :=
  match nodes.lookup nodeId with
  | none => []
  | some n => n.dependencies

/-- Source `TaskGraph.validateNoCycles`, inner `dfs` function.
`visiting` is the recursion-stack set (which in the source equals the
`path` argument), `visited` the set of fully explored nodes; both are
insertion-ordered, `visited` consed at the front.  The
`for (const depId of node.dependencies) dfs(depId, ...)` loop is the
`foldlM` (named `dfsDeps` below for the proofs). -/
def dfsVisit (nodes : List (String × TaskNode)) :
    Nat → String → List String → List String → Except DfsErr (List String)
  | 0, _, _, _ => .error DfsErr.nofuel
  | fuel+1, nodeId, visiting, visited =>
    if nodeId ∈ visiting then .error (DfsErr.cycle (visiting.reverse ++ [nodeId]))
    else if nodeId ∈ visited then .ok visited
    else
      match (depsOf nodes nodeId).foldlM
          (fun v d => dfsVisit nodes fuel d (nodeId :: visiting) v) visited with
      | .error e => .error e
      | .ok v => .ok (nodeId :: v)

/-- The dependency loop of `dfsVisit`, threading the `visited` set. -/
def dfsDeps (nodes : List (String × TaskNode)) (fuel : Nat) (visiting : List String)
    (ds : List String) (visited : List String) : Except DfsErr (List String) :=
  ds.foldlM (fun v d => dfsVisit nodes fuel d visiting v) visited

/-- Source `validateNoCycles`, outer loop: run `dfs` from every not yet
visited node.  Each top-level call gets recursion bound
`nodes.length + 1`, which the fuel-sufficiency lemma below shows is
never exhausted on the graphs reaching this check. -/
def validateAll (nodes : List (String × TaskNode)) :
    List String → List String → Except DfsErr Unit
  | [], _ => .ok ()
  | k :: rest, visited =>
    if k ∈ visited then validateAll nodes rest visited
    else
      match dfsVisit nodes (nodes.length + 1) k [] visited with
      | .error e => .error e
      | .ok v => validateAll nodes rest v

/-- Source `new TaskGraph(tasks)`: `buildGraph` then `validateNoCycles`. -/
def taskGraphNew (tasks : List TaskWithDependencies) : Except String TaskGraph :=
  match buildGraph tasks with
  | .error e => .error e
  | .ok nodes =>
    match validateAll nodes (nodes.map (fun p => p.1)) [] with
    | .ok _ => .ok ⟨nodes⟩
    | .error (DfsErr.cycle p) =>
      .error ("Circular dependency detected: " ++ String.intercalate (" -> ") p)
    | .error DfsErr.nofuel => .error ("recursion limit")

/-- Source `TaskGraph.getTaskDetails`. -/
def TaskGraph.getTaskDetails (g : TaskGraph) (taskId : String) : Option TaskNode :=
  g.nodes.lookup taskId

/-- The ids of the input task list. -/
def taskIds (tasks : List TaskWithDependencies) : List String :=
  tasks.map (fun t => t.id)

/-- Specification predicate: some task lists a dependency id absent from
the task list. -/
def hasDanglingDep (tasks : List TaskWithDependencies) : Prop :=
  ∃ t ∈ tasks, ∃ d ∈ t.dependencies, d ∉ taskIds tasks

/-- The dependency relation of a task list: `depEdge tasks x y` holds when
the task with id `x` lists `y` among its dependencies. -/
def depEdge (tasks : List TaskWithDependencies) (x y : String) : Prop :=
  ∃ t ∈ tasks, t.id = x ∧ y ∈ t.dependencies

/-- Specification predicate: the dependency relation contains a cycle
(a nonempty dependency chain from some id back to itself; a self-loop is
the one-step case). -/
def hasDepCycle (tasks : List TaskWithDependencies) : Prop :=
  ∃ x, Relation.TransGen (depEdge tasks) x x

/-- The edge relation of the built node map, used by the cycle-check
proofs: `y` is a dependency of the node stored for `x`. -/
def nodeEdge (nodes : List (String × TaskNode)) (x y : String) : Prop :=
  ∃ n, nodes.lookup x = some n ∧ y ∈ n.dependencies

/-- The keys of the node map, in insertion order. -/
def keysOf (nodes : List (String × TaskNode)) : List String :=
  nodes.map (fun p => p.1)

/-- The `visited` list of the depth-first search is in reverse
topological order: every entry's dependencies occur later in the list
(they were added to `visited` earlier). -/
inductive TopoList (nodes : List (String × TaskNode)) : List String → Prop
  | nil : TopoList nodes []
  | cons {x : String} {l : List String} :
      (∀ y, nodeEdge nodes x y → y ∈ l) → TopoList nodes l → TopoList nodes (x :: l)

/-- The DFS `visiting` stack is a dependency chain: the current node is a
dependency of the stack's top, and each stack entry a dependency of the
one below it. -/
def VChain (nodes : List (String × TaskNode)) : String → List String → Prop
  | _, [] => True
  | c, p :: rest => nodeEdge nodes p c ∧ VChain nodes p rest

/-! ## Critical path (`TaskGraph.getCriticalPath`) -/

/-- Optional-chaining completion test
(`this.nodes.get(depId)?.completed`; a missing node reads as not
completed). -/
def isCompletedIn (nodes : List (String × TaskNode)) (nodeId : String) : Bool :=
  match nodes.lookup nodeId with
  | none => false
  | some n => n.completed

/-- State of the Kahn-style longest-path loop in `getCriticalPath`. -/
structure KahnState where
  queue : List String
  inDegree : List (String × Int)
  distances : List (String × Int)
  predecessors : List (String × Option String)
  sorted : List String
deriving Repr

/-- Association-list read with a default (the source uses non-null
assertions at these reads). -/
def lookupD {β : Type} (l : List (String × β)) (k : String) (d : β) : β :=
  (l.lookup k).getD d

/-- Body of the `for (const dependentId of node.dependents)` loop in
`getCriticalPath`: relax the distance, decrement the in-degree, enqueue
on reaching zero. -/
def kahnProcessDependent (nodes : List (String × TaskNode)) (nodeId : String)
    (st : KahnState) (dependentId : String) : KahnState :=
  match nodes.lookup dependentId with
  | none => st
  | some dependent =>
    if dependent.completed then st
    else
      let newDist := lookupD st.distances nodeId 0 + 1
      let st1 :=
        if lookupD st.distances dependentId 0 < newDist then
          { st with distances := assocSet st.distances dependentId newDist,
                    predecessors := assocSet st.predecessors dependentId (some nodeId) }
        else st
      let degree := lookupD st1.inDegree dependentId 0 - 1
      let st2 := { st1 with inDegree := assocSet st1.inDegree dependentId degree }
      if degree = 0 then { st2 with queue := st2.queue ++ [dependentId] } else st2

/-- The `while (queue.length > 0)` loop of `getCriticalPath`, with an
explicit recursion bound (each node is enqueued at most once, so the
generous bound used by `getCriticalPath` is never reached). -/
def kahnLoop (nodes : List (String × TaskNode)) : Nat → KahnState → KahnState
  | 0, st => st
  | fuel+1, st =>
    match st.queue with
    | [] => st
    | nodeId :: rest =>
      let st0 := { st with queue := rest, sorted := st.sorted ++ [nodeId] }
      let deps := match nodes.lookup nodeId with | none => [] | some n => n.dependents
      kahnLoop nodes fuel (deps.foldl (kahnProcessDependent nodes nodeId) st0)

/-- Path reconstruction at the end of `getCriticalPath`
(`while (current !== null) { path.unshift(current); current = predecessors.get(current)! }`). -/
def rebuildPath (predecessors : List (String × Option String)) :
    Nat → String → List String → List String
  | 0, current, acc => current :: acc
  | fuel+1, current, acc =>
    match lookupD predecessors current none with
    | none => current :: acc
    | some p => rebuildPath predecessors fuel p (current :: acc)

/-- Source `TaskGraph.getCriticalPath`: Kahn topological layering with a
longest-path DP, then reconstruction from the farthest incomplete node. -/
def TaskGraph.getCriticalPath (g : TaskGraph) : List String :=
  let nodes := g.nodes
  let incomplete := nodes.filter (fun p => !p.2.completed)
  let incompleteDepsLen := fun (p : String × TaskNode) =>
    (p.2.dependencies.filter (fun d => !(isCompletedIn nodes d))).length
  let inDegree := incomplete.map (fun p => (p.1, (Int.ofNat (incompleteDepsLen p))))
  let queue0 := (incomplete.filter (fun p => incompleteDepsLen p = 0)).map (fun p => p.1)
  let distances0 := nodes.map (fun p => (p.1, (0 : Int)))
  let preds0 := nodes.map (fun p => (p.1, (none : Option String)))
  let stF := kahnLoop nodes ((nodes.length + 1) * (nodes.length + 1))
    ⟨queue0, inDegree, distances0, preds0, []⟩
  let best := stF.distances.foldl
    (fun (acc : Int × Option String) p =>
      match nodes.lookup p.1 with
      | none => acc
      | some n => if n.completed = false ∧ acc.1 < p.2 then (p.2, some p.1) else acc)
    ((-1 : Int), (none : Option String))
  match best.2 with
  | none => []
  | some endNode => rebuildPath stF.predecessors (nodes.length + 1) endNode []

/-! ## Scheduling strategies -/

/-- Result of one `selectTasks` call: the returned ids together with the
contents of the caller's `availableTasks` array after the call (to state
frame properties; JS `slice` copies, JS `sort` mutates in place). -/
structure StrategyCall where
  selected : List String
  availableTasksAfter : List String
deriving Repr, DecidableEq

/-- Source `MaxParallelStrategy.selectTasks`: `availableTasks.slice(0, availableWorkers)`. -/
def MaxParallelStrategy.selectTasks (availableTasks : List String) (availableWorkers : Nat) :
    StrategyCall :=
  { selected := availableTasks.take availableWorkers, availableTasksAfter := availableTasks }

/-- Source `RateAwareStrategy.selectTasks`.  The JS arithmetic for the
`estimatedRPMPerTask = 0` configuration is folded into the `if`:
`Math.floor(headroom / 0)` is `Infinity` when `headroom > 0` (so the
minimum is the other two arguments) and `NaN` when `headroom = 0` (and
`slice(0, NaN)` is the empty array).  Natural subtraction is
`Math.max(0, ...)`. -/
def RateAwareStrategy.selectTasks (maxRPM estimatedRPMPerTask : Nat)
    (availableTasks : List String) (availableWorkers : Nat) (currentRPM : Nat) : List String :=
  let headroom := maxRPM - currentRPM
  let tasksToSpawn :=
    if estimatedRPMPerTask = 0 then
      (if headroom = 0 then 0 else min availableTasks.length availableWorkers)
    else
      min availableTasks.length (min availableWorkers (headroom / estimatedRPMPerTask))
  availableTasks.take tasksToSpawn

/-- `RateAwareStrategy.selectTasks` with the frame information
(the source only calls `slice`, which copies). -/
def RateAwareStrategy.selectTasksCall (maxRPM estimatedRPMPerTask : Nat)
    (availableTasks : List String) (availableWorkers : Nat) (currentRPM : Nat) : StrategyCall :=
  { selected := RateAwareStrategy.selectTasks maxRPM estimatedRPMPerTask availableTasks
      availableWorkers currentRPM,
    availableTasksAfter := availableTasks }

/-- Sort key realised by the comparator in
`CriticalPathStrategy.selectTasks`: ids on the critical path are keyed by
their position on it, all other ids share the key `criticalPath.length`
(the comparator returns `0` on any two of them). -/
def criticalPathKey (criticalPath : List String) (x : String) : Nat :=
  if x ∈ criticalPath then criticalPath.indexOf x else criticalPath.length

/-- Stable insertion of `x` in front of the first element of at least its
key. -/
def insertByKey (key : String → Nat) (x : String) : List String → List String
  | [] => [x]
  | y :: ys => if key x ≤ key y then x :: y :: ys else y :: insertByKey key x ys

/-- Stable sort by key, modelling ECMAScript `Array.prototype.sort`
(stable since ES2019) with a comparator that is a key comparison. -/
def stableSortByKey (key : String → Nat) : List String → List String
  | [] => []
  | x :: xs => insertByKey key x (stableSortByKey key xs)

/-- Source `CriticalPathStrategy.selectTasks`: without a graph it falls
back to the max-parallel slice; with a graph it sorts `availableTasks`
**in place** by the critical-path comparator and slices a prefix, so the
caller's array is left reordered. -/
def CriticalPathStrategy.selectTasks (availableTasks : List String) (availableWorkers : Nat)
    (graph : Option TaskGraph) : StrategyCall :=
  match graph with
  | none =>
    { selected := availableTasks.take availableWorkers, availableTasksAfter := availableTasks }
  | some g =>
    let criticalPath := g.getCriticalPath
    let prioritized := stableSortByKey (criticalPathKey criticalPath) availableTasks
    { selected := prioritized.take availableWorkers, availableTasksAfter := prioritized }

/-! ## ParallelInstanceManager (`ParallelInstanceManager.ts`)

The pool is its `workers` map.  The backing `Task` object and timestamps
are irrelevant to the pool-map properties and are omitted from
`WorkerInstance`; session creation success is a boolean parameter
(`Promise.race` of `createTask` against the spawn timeout). -/

/-- Source worker status union. -/
inductive WorkerStatus
  | idle | busy | workerError | terminated
deriving Repr, DecidableEq

/-- Source `WorkerInstance` metadata (pool-relevant fields). -/
structure WorkerInstance where
  id : String
  workingDir : String
  status : WorkerStatus
deriving Repr, DecidableEq

/-- Source `ParallelInstanceConfig` (the `workspaceDirs` option is unused
by the modelled operations). -/
structure ParallelInstanceConfig where
  maxWorkers : Nat
  spawnTimeout : Nat
  autoCleanup : Bool
deriving Repr, DecidableEq

/-- Parameters of `spawnWorker`. -/
structure SpawnParams where
  taskId : String
  workingDir : String
  systemPrompt : String
  mcpServers : Option (List String) := none
deriving Repr, DecidableEq

/-- Source `ParallelInstanceManager.terminateWorker`: a no-op when the id
is untracked; otherwise the worker is marked, aborted, disposed, and the
`finally` block always removes it from the map.  The net effect on the
map is the removal. -/
def terminateWorker (workers : List (String × WorkerInstance)) (workerId : String) :
    List (String × WorkerInstance) :=
  match workers.lookup workerId with
  | none => workers
  | some _ => workers.filter (fun p => p.1 ≠ workerId)

/-- Source `ParallelInstanceManager.spawnWorker`: limit check, duplicate
check, then session creation raced against the timeout (`sessionOk`
states whether it won the race); on creation failure the `catch` block
runs `terminateWorker` when `autoCleanup` is set and rethrows.  Returns
the pool map after the call together with the outcome. -/
def spawnWorker (cfg : ParallelInstanceConfig) (workers : List (String × WorkerInstance))
    (params : SpawnParams) (sessionOk : Bool) :
    List (String × WorkerInstance) × Except String WorkerInstance :=
  if cfg.maxWorkers ≤ workers.length then
    (workers, .error ("Maximum worker limit reached"))
  else if (workers.lookup params.taskId).isSome then
    (workers, .error ("Worker with ID already exists"))
  else if sessionOk then
    let worker : WorkerInstance :=
      { id := params.taskId, workingDir := params.workingDir, status := .idle }
    (workers ++ [(params.taskId, worker)], .ok worker)
  else
    ((if cfg.autoCleanup then terminateWorker workers params.taskId else workers),
      .error ("Worker spawn timeout"))

/-! ## OrchestrationScheduler (`OrchestrationScheduler.ts`) -/

/-- Source execution states. -/
inductive ExecState
  | pending | running | completed | failed
deriving Repr, DecidableEq

/-- Scheduler lifecycle events relevant to dispatch. -/
inductive SchedEvent
  | taskAssigned (taskId workerId : String)
  | taskAssignFailed (taskId : String)
deriving Repr, DecidableEq

/-- Mutable scheduler fields touched by `assignTask`. -/
structure SchedulerState where
  executionState : List (String × ExecState)
  workerMapping : List (String × String)
  currentRPM : Nat
  events : List SchedEvent
deriving Repr, DecidableEq

/-- Source `OrchestrationScheduler.assignTask`, with the pool threaded
explicitly and session creation abstracted by `sessionOk` (the IPC send
of the `task-assignment` message has no effect on the modelled state).
A missing node throws before the `try`, leaving all state untouched; a
spawn failure lands in the `catch`, which marks the task failed, emits
`task-assign-failed` and rethrows.  `estDefault` is
`this.options.estimatedRPMPerTask ?? 15`; a task `estimatedRPM` of `0`
is falsy in JS and also falls back to the default. -/
def assignTask (g : TaskGraph) (cfg : ParallelInstanceConfig) (estDefault : Nat)
    (sessionOk : String → Bool) (st : SchedulerState)
    (pool : List (String × WorkerInstance)) (taskId : String) :
    (SchedulerState × List (String × WorkerInstance)) × Except String Unit :=
  match g.getTaskDetails taskId with
  | none => ((st, pool), .error ("Task " ++ taskId ++ " not found in graph"))
  | some taskDetails =>
    match spawnWorker cfg pool
        { taskId := taskId, workingDir := taskDetails.workspacePath,
          systemPrompt := taskDetails.instructions } (sessionOk taskId) with
    | (pool2, .error e) =>
      (({ st with
            executionState := assocSet st.executionState taskId .failed,
            events := st.events ++ [.taskAssignFailed taskId] }, pool2),
        .error e)
    | (pool2, .ok worker) =>
      let add :=
        match taskDetails.estimatedRPM with
        | some e => if e = 0 then estDefault else e
        | none => estDefault
      (({ st with
            workerMapping := assocSet st.workerMapping taskId worker.id,
            executionState := assocSet st.executionState taskId .running,
            currentRPM := st.currentRPM + add,
            events := st.events ++ [.taskAssigned taskId worker.id] }, pool2),
        .ok ())

/-- The dispatch step of `OrchestrationScheduler.start`:
`for (const taskId of tasksToSpawn) await this.assignTask(taskId)`.
The loop body is not guarded, so an `assignTask` rejection propagates:
the remaining picked ids are not processed and the error reaches the
outer `try` of `start`, which emits `error` and rethrows. -/
def dispatchTasks (g : TaskGraph) (cfg : ParallelInstanceConfig) (estDefault : Nat)
    (sessionOk : String → Bool) :
    SchedulerState → List (String × WorkerInstance) → List String →
    (SchedulerState × List (String × WorkerInstance)) × Except String Unit
  | st, pool, [] => ((st, pool), .ok ())
  | st, pool, taskId :: rest =>
    match assignTask g cfg estDefault sessionOk st pool taskId with
    | ((st2, pool2), .ok _) => dispatchTasks g cfg estDefault sessionOk st2 pool2 rest
    | ((st2, pool2), .error e) => ((st2, pool2), .error e)

/-- Source `OrchestrationScheduler.getAvailableWorkerCount`: counts the
running tasks and returns `Math.max(0, 10 - runningCount)` — the `10` is
hard-coded ("return a conservative estimate") instead of the pool's
`maxWorkers`.  Natural subtraction is the `Math.max(0, ...)`. -/
def getAvailableWorkerCount (executionState : List (String × ExecState)) : Nat :=
  let runningCount := (executionState.filter (fun p => p.2 = ExecState.running)).length
  10 - runningCount

/-- The value the specification prescribes for the slot count:
`maxWorkers − count(state=running)`. -/
def availableWorkersSpec (maxWorkers : Nat) (executionState : List (String × ExecState)) : Nat :=
  maxWorkers - (executionState.filter (fun p => p.2 = ExecState.running)).length

/-! ## ReviewCoordinator (`ReviewCoordinator.ts`) -/

/-- The specialization-specific reviewer system prompt. -/
def reviewerSystemPrompt (specialization : String) : String :=
  "You are a " ++ specialization ++ " code reviewer. Review code changes for quality and provide feedback."

/-- Result of `ensureReviewerAvailable`: the `activeReviewers` map and
pool after the call, and the reviewer id (or the propagated spawn
error). -/
structure ReviewerEnsureResult where
  activeReviewers : List (String × String)
  pool : List (String × WorkerInstance)
  result : Except String String
deriving Repr

/-- Source `ReviewCoordinator.ensureReviewerAvailable`: reuse the
reviewer recorded for the specialization, or spawn a fresh worker with id
`reviewer-<specialization>-<shortUuid>` and working directory `"./"`
("Reviewers don't need isolated workspace"), then record it.
`shortUuid` stands for `uuidv4().substring(0, 8)`. -/
def ensureReviewerAvailable (cfg : ParallelInstanceConfig)
    (activeReviewers : List (String × String)) (pool : List (String × WorkerInstance))
    (specialization : String) (shortUuid : String) (sessionOk : Bool) : ReviewerEnsureResult :=
  match activeReviewers.lookup specialization with
  | some existingReviewer => ⟨activeReviewers, pool, .ok existingReviewer⟩
  | none =>
    let reviewerId := "reviewer-" ++ specialization ++ "-" ++ shortUuid
    match spawnWorker cfg pool
        { taskId := reviewerId, workingDir := "./",
          systemPrompt := reviewerSystemPrompt specialization,
          mcpServers := some [] } sessionOk with
    | (pool2, .ok worker) =>
      ⟨assocSet activeReviewers specialization worker.id, pool2, .ok worker.id⟩
    | (pool2, .error e) => ⟨activeReviewers, pool2, .error e⟩

/-! ## WorkspaceAnalyzer (`WorkspaceAnalyzer.ts`) -/

/-- Source conflict severity union. -/
inductive Severity
  | error | warning
deriving Repr, DecidableEq

/-- Source `WorkspaceConflict`. -/
structure WorkspaceConflict where
  taskIds : String × String
  conflictPath : String
  severity : Severity
  description : String
deriving Repr, DecidableEq

/-- Source `WorkspaceAnalyzerConfig`. -/
structure WorkspaceAnalyzerConfig where
  strictMode : Bool
  allowNestedDirs : Bool
  supportWildcards : Bool
deriving Repr, DecidableEq

/-- Source `WorkspaceValidation`. -/
structure WorkspaceValidation where
  isValid : Bool
  conflicts : List WorkspaceConflict
  assignments : List (String × String)
deriving Repr, DecidableEq

/-- JS `String.prototype.startsWith`, computed on the character lists
(the character-level equivalent of `String.startsWith`). -/
def beginsWith (s pre : String) : Bool :=
  List.isPrefixOf pre.data s.data

/-- Strip the trailing run of slashes (`replace(/\/+$/, "")`). -/
def dropTrailingSlashes (s : String) : String :=
  String.mk ((s.data.reverse.dropWhile (fun c => c = '/')).reverse)

/-- Collapse runs of slashes to one (`replace(/\/+/g, "/")`); the flag
says whether the previous kept character was a slash. -/
def collapseSlashesAux (prevSlash : Bool) : List Char → List Char
  | [] => []
  | c :: rest =>
    if c = '/' then
      if prevSlash then collapseSlashesAux true rest
      else '/' :: collapseSlashesAux true rest
    else c :: collapseSlashesAux false rest

/-- Collapse runs of slashes to one (`replace(/\/+/g, "/")`). -/
def collapseSlashes (l : List Char) : List Char :=
  collapseSlashesAux false l

/-- Source `WorkspaceAnalyzer.normalizePath`.  `win32` is the
`process.platform === "win32"` test made at the only place it is read. -/
def normalizePath (win32 : Bool) (path : String) : String :=
  if path = "" then "/"
  else
    let n1 := String.mk (path.data.map (fun c => if c = '\\' then '/' else c))
    let n2 := if 1 < n1.length then dropTrailingSlashes n1 else n1
    let n3 := if beginsWith n2 ("/") then n2 else "/" ++ n2
    let n4 := if win32 then String.mk (n3.data.map Char.toLower) else n3
    String.mk (collapseSlashes n4.data)

/-- Matching of the regex built by `toRegex` in `wildcardConflict`: the
pattern is anchored, `**` becomes `.*`, a single `*` becomes `[^/]*`,
every other character is escaped to a literal. -/
def globMatch : List Char → List Char → Bool
  | [], s => s.isEmpty
  | '*' :: '*' :: p2, [] => globMatch p2 []
  | '*' :: '*' :: p2, c :: s2 => globMatch p2 (c :: s2) || globMatch ('*' :: '*' :: p2) s2
  | '*' :: p2, [] => globMatch p2 []
  | '*' :: p2, c :: s2 => globMatch p2 (c :: s2) || (!(c = '/') && globMatch ('*' :: p2) s2)
  | _ :: _, [] => false
  | c :: p2, c2 :: s2 => c = c2 && globMatch p2 s2
termination_by p s => p.length + s.length
decreasing_by all_goals simp_arith

/-- Source `WorkspaceAnalyzer.wildcardConflict`. -/
def wildcardConflict (path1 path2 : String) : Bool :=
  let hasWildcard1 := path1.data.contains '*'
  let hasWildcard2 := path2.data.contains '*'
  if !hasWildcard1 && !hasWildcard2 then false
  else if hasWildcard1 && globMatch path1.data path2.data then true
  else if hasWildcard2 && globMatch path2.data path1.data then true
  else if hasWildcard1 && hasWildcard2 then
    let base1 := String.mk (path1.data.takeWhile (fun c => !(c = '*')))
    let base2 := String.mk (path2.data.takeWhile (fun c => !(c = '*')))
    beginsWith base1 base2 || beginsWith base2 base1
  else false

/-- Source `WorkspaceAnalyzer.pathsConflict` (on normalized paths). -/
def pathsConflict (allowNestedDirs supportWildcards : Bool) (path1 path2 : String) : Bool :=
  if path1 = path2 then true
  else if !allowNestedDirs &&
      (path1 = "/" || path2 = "/" ||
        beginsWith path1 (path2 ++ "/") || beginsWith path2 (path1 ++ "/")) then true
  else if supportWildcards && wildcardConflict path1 path2 then true
  else false

/-- Source `WorkspaceAnalyzer.getConflictReason`. -/
def getConflictReason (path1 path2 : String) : String :=
  if path1 = path2 then "Identical paths: both tasks assigned to \"" ++ path1 ++ "\""
  else if beginsWith path1 (path2 ++ "/") then "\"" ++ path1 ++ "\" is nested under \"" ++ path2 ++ "\""
  else if beginsWith path2 (path1 ++ "/") then "\"" ++ path2 ++ "\" is nested under \"" ++ path1 ++ "\""
  else if path1.data.contains '*' || path2.data.contains '*' then
    "Overlapping wildcard patterns: \"" ++ path1 ++ "\" and \"" ++ path2 ++ "\""
  else "Paths conflict"

/-- Source `WorkspaceAnalyzer.checkConflict`.  In the embedding
`workspacePath` is always a string, so the `undefined`/`null` guards of
the source are vacuous and omitted. -/
def checkConflict (allowNestedDirs supportWildcards win32 : Bool) (task1 task2 : TaskNode) :
    Option WorkspaceConflict :=
  let path1 := normalizePath win32 task1.workspacePath
  let path2 := normalizePath win32 task2.workspacePath
  if pathsConflict allowNestedDirs supportWildcards path1 path2 then
    some { taskIds := (task1.id, task2.id),
           conflictPath := if path1 = path2 then path1 else path1 ++ " / " ++ path2,
           severity := .error,
           description := getConflictReason path1 path2 }
  else none

/-- The `i < j` double loop of `validateAssignments`, collecting the
pairwise conflicts in loop order. -/
def collectConflicts (allowNestedDirs supportWildcards win32 : Bool) :
    List TaskNode → List WorkspaceConflict
  | [] => []
  | t :: ts =>
    ts.filterMap (checkConflict allowNestedDirs supportWildcards win32 t) ++
      collectConflicts allowNestedDirs supportWildcards win32 ts

/-- Source `WorkspaceAnalyzer.validateAssignments`. -/
def WorkspaceAnalyzer.validateAssignments (config : WorkspaceAnalyzerConfig) (win32 : Bool)
    (tasks : List TaskNode) : WorkspaceValidation :=
  let conflicts := collectConflicts config.allowNestedDirs config.supportWildcards win32 tasks
  let assignments := tasks.foldl (fun acc t => assocSet acc t.id t.workspacePath) []
  let isValid :=
    if config.strictMode then conflicts.length = 0
    else (conflicts.filter (fun c => c.severity = Severity.error)).length = 0
  ⟨isValid, conflicts, assignments⟩

/-! ## IPCChannel message queueing (`IPCChannel.ts`) -/

/-- Source `IPCMessageType` union. -/
inductive IPCMessageType
  | taskAssignment | taskCompleted | taskFailed | reviewRequest
  | reviewApproved | reviewRejected | escalation | heartbeat
deriving Repr, DecidableEq

/-- Source `IPCMessage`.  The payload is opaque for the queueing
properties. -/
structure IPCMessage where
  id : String
  type : IPCMessageType
  fromId : String
  toId : String
  payload : String
  timestamp : Int
  correlationId : Option String := none
deriving Repr, DecidableEq

/-- The `IPCChannel` fields relevant to queueing: the per-destination
queues (a JS `Map`, insertion-ordered) and the keys of
`pendingMessages`. -/
structure IPCState where
  messageQueue : List (String × List IPCMessage)
  pendingIds : List String
  maxQueueSize : Nat
deriving Repr, DecidableEq

/-- The `if (message.correlationId)` guard of `handleMessage` combined
with the pending lookup: a truthy correlation id (non-empty string) that
matches a pending waiter. -/
def corrResolves (pendingIds : List String) (m : IPCMessage) : Bool :=
  match m.correlationId with
  | none => false
  | some cid => !(cid = "") && pendingIds.contains cid

/-- The enqueue step of `handleMessage`: fetch the destination queue,
drop the oldest element at capacity, push the message. -/
def enqueueMessage (maxQueueSize : Nat) (queues : List (String × List IPCMessage))
    (m : IPCMessage) : List (String × List IPCMessage) :=
  let q := (queues.lookup m.toId).getD []
  let q1 := if maxQueueSize ≤ q.length then q.drop 1 else q
  assocSet queues m.toId (q1 ++ [m])

/-- Which branch `handleMessage` took. -/
inductive HandleResult
  | resolvedPending | enqueued
deriving Repr, DecidableEq

/-- Source `IPCChannel.handleMessage`: a message whose correlation id
matches a pending waiter resolves it and is **not** enqueued; every other
message is appended to its destination queue and then delivered to the
`message` event listeners (which is how a `waitForMessage` waiter
resolves — without touching the queue). -/
def handleMessage (st : IPCState) (m : IPCMessage) : IPCState × HandleResult :=
  if corrResolves st.pendingIds m then
    ({ st with pendingIds := st.pendingIds.erase (m.correlationId.getD ("")) },
      .resolvedPending)
  else
    ({ st with messageQueue := enqueueMessage st.maxQueueSize st.messageQueue m }, .enqueued)

/-- `findIndex` + `splice(index, 1)` on one queue: remove and return the
first element matching the filter. -/
def spliceFirst (filter : IPCMessage → Bool) :
    List IPCMessage → Option (IPCMessage × List IPCMessage)
  | [] => none
  | m :: ms =>
    if filter m then some (m, ms)
    else
      match spliceFirst filter ms with
      | none => none
      | some (r, ms2) => some (r, m :: ms2)

/-- The initial queue scan of `IPCChannel.waitForMessage`: walk the
destination queues in map order and remove the first matching message. -/
def scanQueues (filter : IPCMessage → Bool) :
    List (String × List IPCMessage) →
    Option (IPCMessage × List (String × List IPCMessage))
  | [] => none
  | (dest, q) :: rest =>
    match spliceFirst filter q with
    | some (m, q2) => some (m, (dest, q2) :: rest)
    | none =>
      match scanQueues filter rest with
      | some (m, rest2) => some (m, (dest, q) :: rest2)
      | none => none

/-- All messages currently queued, across destinations. -/
def allQueued (queues : List (String × List IPCMessage)) : List IPCMessage :=
  queues.flatMap (fun p => p.2)

/-! ## Concrete inputs used by the theorems -/

/-- A four-task graph: the chain `A → B → C` plus the isolated task `D`
(so the critical path is `[A, B, C]`). -/
def chainTasks : List TaskWithDependencies :=
  [{ id := "A", dependencies := [], instructions := "a", workspacePath := "/a" },
   { id := "B", dependencies := ["A"], instructions := "b", workspacePath := "/b" },
   { id := "C", dependencies := ["B"], instructions := "c", workspacePath := "/c" },
   { id := "D", dependencies := [], instructions := "d", workspacePath := "/d" }]

/-- The `TaskGraph` built from `chainTasks`. -/
def chainGraph : TaskGraph :=
  match taskGraphNew chainTasks with
  | .ok g => g
  | .error _ => ⟨[]⟩

/-- A task depending only on itself. -/
def selfLoopTask : TaskWithDependencies :=
  { id := "A", dependencies := ["A"], instructions := "a", workspacePath := "/a" }

/-! ## Association-list helper lemmas -/

theorem lookup_cons_self {β : Type} (k : String) (v : β) (l : List (String × β)) :
    ((k, v) :: l).lookup k = some v := by simp [List.lookup]

theorem lookup_cons_ne {β : Type} (k a : String) (v : β) (l : List (String × β)) (h : a ≠ k) :
    ((a, v) :: l).lookup k = l.lookup k := by
  simp [List.lookup, beq_eq_false_iff_ne.mpr (Ne.symm h)]

theorem keys_ne_of_lookup_none {β : Type} (k : String) (l : List (String × β))
    (h : l.lookup k = none) : ∀ p ∈ l, p.1 ≠ k := by
  induction l with
  | nil => simp
  | cons p rest ih =>
    intro q hq
    by_cases hpk : p.1 = k
    · rw [show p = (p.1, p.2) from rfl, hpk, lookup_cons_self] at h; cases h
    · rcases List.mem_cons.mp hq with hq1 | h2
      · rw [hq1]; exact hpk
      · exact ih (by rwa [show p = (p.1, p.2) from rfl, lookup_cons_ne k p.1 p.2 rest hpk] at h) q h2

theorem lookup_none_of_keys_ne {β : Type} (k : String) (l : List (String × β))
    (h : ∀ p ∈ l, p.1 ≠ k) : l.lookup k = none := by
  induction l with
  | nil => rfl
  | cons p rest ih =>
    rw [show p = (p.1, p.2) from rfl, lookup_cons_ne k p.1 p.2 rest (h p (List.mem_cons_self p rest))]
    exact ih (fun q hq => h q (List.mem_cons_of_mem p hq))

theorem lookup_append_of_none {β : Type} (k : String) (l l2 : List (String × β))
    (h : l.lookup k = none) : (l ++ l2).lookup k = l2.lookup k := by
  induction l with
  | nil => rfl
  | cons p rest ih =>
    have hpk : p.1 ≠ k := keys_ne_of_lookup_none k (p :: rest) h p (List.mem_cons_self p rest)
    rw [show p = (p.1, p.2) from rfl] at h ⊢
    rw [List.cons_append, lookup_cons_ne k p.1 p.2 _ hpk]
    exact ih (by rwa [lookup_cons_ne k p.1 p.2 rest hpk] at h)

theorem lookup_append {β : Type} (k : String) (l l2 : List (String × β)) :
    (l ++ l2).lookup k = ((l.lookup k).or (l2.lookup k)) := by
  induction l with
  | nil => simp
  | cons p rest ih =>
    by_cases hpk : p.1 = k
    · rw [show p = (p.1, p.2) from rfl, hpk, List.cons_append, lookup_cons_self, lookup_cons_self]
      rfl
    · rw [show p = (p.1, p.2) from rfl, List.cons_append, lookup_cons_ne k p.1 p.2 _ hpk,
        lookup_cons_ne k p.1 p.2 _ hpk, ih]

theorem assocSet_lookup_self {β : Type} (l : List (String × β)) (k : String) (v : β) :
    (assocSet l k v).lookup k = some v := by
  unfold assocSet
  split
  case isTrue h =>
    induction l with
    | nil => simp at h
    | cons p rest ih =>
      by_cases hpk : p.1 = k
      · rw [List.map_cons, if_pos hpk, lookup_cons_self]
      · rw [List.map_cons, if_neg hpk, show p = (p.1, p.2) from rfl,
          lookup_cons_ne k p.1 p.2 _ hpk]
        rw [show p = (p.1, p.2) from rfl, lookup_cons_ne k p.1 p.2 rest hpk] at h
        exact ih h
  case isFalse h =>
    have hn : l.lookup k = none := Option.not_isSome_iff_eq_none.mp h
    rw [lookup_append_of_none k l _ hn, lookup_cons_self]

theorem lookup_map_update_ne {β : Type} (l : List (String × β)) (k k2 : String) (v : β)
    (h : k ≠ k2) :
    (l.map (fun p => if p.1 = k then (k, v) else p)).lookup k2 = l.lookup k2 := by
  induction l with
  | nil => rfl
  | cons p rest ih =>
    by_cases hpk : p.1 = k
    · rw [List.map_cons, if_pos hpk, lookup_cons_ne k2 k v _ h,
        show p = (p.1, p.2) from rfl, lookup_cons_ne k2 p.1 p.2 rest (by rw [hpk]; exact h)]
      exact ih
    · by_cases hpk2 : p.1 = k2
      · rw [List.map_cons, if_neg hpk, show p = (p.1, p.2) from rfl, hpk2,
          lookup_cons_self, lookup_cons_self]
      · rw [List.map_cons, if_neg hpk, show p = (p.1, p.2) from rfl,
          lookup_cons_ne k2 p.1 p.2 _ hpk2, lookup_cons_ne k2 p.1 p.2 rest hpk2]
        exact ih

theorem assocSet_lookup_ne {β : Type} (l : List (String × β)) (k k2 : String) (v : β)
    (h : k ≠ k2) : (assocSet l k v).lookup k2 = l.lookup k2 := by
  unfold assocSet
  split
  case isTrue hs => exact lookup_map_update_ne l k k2 v h
  case isFalse hs =>
    rw [lookup_append, lookup_cons_ne k2 k v [] h]
    simp [List.lookup]

/-! ## RateLimiter theorems (claim C7) -/

theorem RateLimiter.getCurrentRPM_eq_sum (history : List RequestRecord) (now : Int) :
    RateLimiter.getCurrentRPM history now =
      ((history.filter (fun r => r.timestamp > now - 60000)).map (fun r => r.count)).sum := by
  unfold RateLimiter.getCurrentRPM
  split
  case isTrue h =>
    have : history = [] := List.eq_nil_of_length_eq_zero h
    subst this
    simp
  case isFalse h => rfl

theorem RateLimiter.track_hit (history : List RequestRecord) (now k : Int)
    (h : history.any (fun r => r.timestamp = now.fdiv 1000 * 1000) = true) :
    RateLimiter.track history now k =
      RateLimiter.bumpFirst (now.fdiv 1000 * 1000) k history := by
  simp only [RateLimiter.track]
  rw [if_pos h]

theorem RateLimiter.track_miss (history : List RequestRecord) (now k : Int)
    (h : ¬ history.any (fun r => r.timestamp = now.fdiv 1000 * 1000) = true) :
    RateLimiter.track history now k =
      history ++ [{ timestamp := now.fdiv 1000 * 1000, count := k }] := by
  simp only [RateLimiter.track]
  rw [if_neg h]

theorem RateLimiter.bumpFirst_sum (cs k bound : Int) (history : List RequestRecord)
    (h : history.any (fun r => r.timestamp = cs) = true) :
    (((RateLimiter.bumpFirst cs k history).filter (fun r => r.timestamp > bound)).map
        (fun r => r.count)).sum =
      ((history.filter (fun r => r.timestamp > bound)).map (fun r => r.count)).sum +
        (if cs > bound then k else 0) := by
  induction history with
  | nil => simp at h
  | cons r rs ih =>
    by_cases hr : r.timestamp = cs
    · unfold RateLimiter.bumpFirst
      rw [if_pos hr]
      by_cases hb : cs > bound
      · have hrb : r.timestamp > bound := by rw [hr]; exact hb
        simp [List.filter_cons, hrb, hb]
        ring
      · have hrb : ¬ r.timestamp > bound := by rw [hr]; exact hb
        simp [List.filter_cons, hrb, hb]
    · unfold RateLimiter.bumpFirst
      rw [if_neg hr]
      have h2 : rs.any (fun r => r.timestamp = cs) = true := by
        simp only [List.any_cons, Bool.or_eq_true, decide_eq_true_eq] at h
        rcases h with h1 | h2
        · exact absurd h1 hr
        · exact h2
      by_cases hrb : r.timestamp > bound
      · simp [List.filter_cons, hrb, ih h2]
        ring
      · simp [List.filter_cons, hrb, ih h2]

/-- C7: `getCurrentRPM` sums exactly the per-second buckets whose
timestamp is strictly greater than `now − 60000`: it equals the filtered
sum; a `track` at time `t` contributes its count exactly when the bucket
second of `t` lies strictly inside the window; and a single request
tracked at `t = 0` and read at `now = 60000` contributes nothing, so the
read returns `0` at the exact 60-second boundary. -/
theorem RateLimiter.getCurrentRPM_window :
    (∀ (history : List RequestRecord) (now : Int),
        RateLimiter.getCurrentRPM history now =
          ((history.filter (fun r => r.timestamp > now - 60000)).map (fun r => r.count)).sum) ∧
    (∀ (history : List RequestRecord) (t k now : Int),
        RateLimiter.getCurrentRPM (RateLimiter.track history t k) now =
          RateLimiter.getCurrentRPM history now +
            (if t.fdiv 1000 * 1000 > now - 60000 then k else 0)) ∧
    RateLimiter.getCurrentRPM (RateLimiter.track [] 0 1) 60000 = 0 := by
  refine ⟨RateLimiter.getCurrentRPM_eq_sum, ?_, by decide⟩
  intro history t k now
  rw [RateLimiter.getCurrentRPM_eq_sum, RateLimiter.getCurrentRPM_eq_sum]
  by_cases hany : history.any (fun r => r.timestamp = t.fdiv 1000 * 1000) = true
  · rw [RateLimiter.track_hit history t k hany]
    exact RateLimiter.bumpFirst_sum _ k (now - 60000) history hany
  · rw [RateLimiter.track_miss history t k hany]
    rw [List.filter_append, List.map_append, List.sum_append]
    by_cases hb : t.fdiv 1000 * 1000 > now - 60000
    · simp [List.filter_cons, hb]
    · simp [List.filter_cons, hb]

/-! ## Scheduler slot count (claim C2) -/

/-- C2: `getAvailableWorkerCount` ignores the pool's configured
`maxWorkers` and computes `max(0, 10 − runningCount)`.  With a pool
configured with `maxWorkers = 5` and no running task the scheduler hands
the strategy 10 slots while the specification value
`maxWorkers − count(state=running)` is 5. -/
theorem getAvailableWorkerCount_hardcodes_ten :
    getAvailableWorkerCount [] = 10 ∧
      (ParallelInstanceConfig.mk 5 3000 true).maxWorkers = 5 ∧
      availableWorkersSpec (ParallelInstanceConfig.mk 5 3000 true).maxWorkers [] = 5 ∧
      getAvailableWorkerCount [] ≠
        availableWorkersSpec (ParallelInstanceConfig.mk 5 3000 true).maxWorkers [] := by
  decide

/-! ## RateAwareStrategy theorems (claim C3) -/

/-- C3 counterexample: with `estimatedRPMPerTask = 0` and positive
headroom (`maxRPM = 3800`, `currentRPM = 0`), `selectTasks` returns the
nonempty prefix `["t1"]`, not the empty list: in JS,
`Math.floor(headroom / 0)` is `Infinity`, which never constrains the
minimum. -/
theorem rateAware_zero_estimate_counterexample :
    RateAwareStrategy.selectTasks 3800 0 ["t1"] 1 0 = ["t1"] ∧
      (["t1"] : List String) ≠ ([] : List String) := by
  constructor
  · rfl
  · decide

/-- C3 (amended): for a positive `estimatedRPMPerTask` the strategy
returns the prefix of length
`min(len(ready), availableWorkers, ⌊headroom / estimatedRPMPerTask⌋)` —
in particular the empty list whenever the headroom is 0; when
`estimatedRPMPerTask = 0` it returns the empty list only if the headroom
is 0, and otherwise the prefix of length
`min(len(ready), availableWorkers)`. -/
theorem rateAware_selectTasks_spec (maxRPM est : Nat) (availableTasks : List String)
    (availableWorkers currentRPM : Nat) :
    (0 < est →
        RateAwareStrategy.selectTasks maxRPM est availableTasks availableWorkers currentRPM =
          availableTasks.take
            (min availableTasks.length (min availableWorkers ((maxRPM - currentRPM) / est)))) ∧
    (maxRPM - currentRPM = 0 →
        RateAwareStrategy.selectTasks maxRPM est availableTasks availableWorkers currentRPM = []) ∧
    (est = 0 → 0 < maxRPM - currentRPM →
        RateAwareStrategy.selectTasks maxRPM est availableTasks availableWorkers currentRPM =
          availableTasks.take (min availableTasks.length availableWorkers)) := by
  refine ⟨fun hest => ?_, fun hhead => ?_, fun hest hhead => ?_⟩
  · simp only [RateAwareStrategy.selectTasks]
    rw [if_neg (Nat.pos_iff_ne_zero.mp hest)]
  · by_cases hest : est = 0
    · simp [RateAwareStrategy.selectTasks, hest, hhead]
    · simp [RateAwareStrategy.selectTasks, hest, hhead]
  · simp only [RateAwareStrategy.selectTasks]
    rw [if_pos hest, if_neg (Nat.pos_iff_ne_zero.mp hhead)]

/-- Witness for `rateAware_selectTasks_spec`, exercising all three cases
on concrete inputs. -/
theorem rateAware_selectTasks_spec_witness :
    RateAwareStrategy.selectTasks 100 40 ["t1", "t2", "t3"] 5 0 = ["t1", "t2"] ∧
      RateAwareStrategy.selectTasks 100 15 ["t1"] 3 100 = [] ∧
      RateAwareStrategy.selectTasks 100 0 ["t1", "t2"] 1 0 = ["t1"] := by
  refine ⟨?_, ?_, ?_⟩
  · rw [(rateAware_selectTasks_spec 100 40 ["t1", "t2", "t3"] 5 0).1 (by decide)]
    decide
  · exact (rateAware_selectTasks_spec 100 15 ["t1"] 3 100).2.1 (by decide)
  · rw [(rateAware_selectTasks_spec 100 0 ["t1", "t2"] 1 0).2.2 (by decide) (by decide)]
    decide

/-! ## Worker pool theorems (claim C9) -/

theorem terminateWorker_absent (workers : List (String × WorkerInstance)) (workerId : String)
    (h : workers.lookup workerId = none) : terminateWorker workers workerId = workers := by
  unfold terminateWorker
  rw [h]

/-- C9: `spawnWorker` is atomic on failure: whenever it returns an error
(pool at `maxWorkers`, duplicate `taskId`, or session creation timing
out/failing), the pool map after the call is exactly the map before it —
no worker is registered under the requested id and no existing worker is
removed (the `autoCleanup` call of `terminateWorker` is a no-op because
the failing spawn never tracked the worker). -/
theorem spawnWorker_error_frame (cfg : ParallelInstanceConfig)
    (workers : List (String × WorkerInstance)) (params : SpawnParams) (sessionOk : Bool)
    (e : String) (h : (spawnWorker cfg workers params sessionOk).2 = .error e) :
    (spawnWorker cfg workers params sessionOk).1 = workers := by
  unfold spawnWorker at h ⊢
  split_ifs at h ⊢ with h1 h2 h3 h4
  · rfl
  · rfl
  · exact terminateWorker_absent workers params.taskId
      (Option.not_isSome_iff_eq_none.mp h2)
  · rfl

/-- Witness for `spawnWorker_error_frame`: a spawn that times out on an
empty pool leaves the pool empty. -/
theorem spawnWorker_error_frame_witness :
    (spawnWorker ⟨2, 3000, true⟩ [] ⟨"t1", "/w", "p", none⟩ false).1 = [] :=
  spawnWorker_error_frame ⟨2, 3000, true⟩ [] ⟨"t1", "/w", "p", none⟩ false
    "Worker spawn timeout" (by rfl)

/-! ## ReviewCoordinator theorems (claim C6) -/

/-- C6 counterexample: the reviewer spawned on a miss of the
specialization map gets working directory `"./"`, not `"/"`: at
specialization `style` and short uuid `abcd1234` the pool records the
worker with `workingDir = "./"`. -/
theorem reviewer_workingDir_counterexample :
    ((ensureReviewerAvailable ⟨10, 3000, true⟩ [] [] "style" "abcd1234" true).pool.lookup
        "reviewer-style-abcd1234") =
      some { id := "reviewer-style-abcd1234", workingDir := "./", status := WorkerStatus.idle } ∧
      ("./" : String) ≠ "/" := by
  constructor
  · rfl
  · decide

/-- C6 (amended): when no live reviewer is recorded for the
specialization, `ensureReviewerAvailable` spawns a fresh worker whose id
is `reviewer-<specialization>-<shortUuid>` and whose working directory is
`"./"` (not `"/"`), records it in the specialization map, and every later
request for the same specialization returns the recorded reviewer with
both the map and the pool unchanged. -/
theorem ensureReviewer_spawn_records_and_reuses (cfg : ParallelInstanceConfig)
    (activeReviewers : List (String × String)) (pool : List (String × WorkerInstance))
    (specialization shortUuid : String)
    (hnone : activeReviewers.lookup specialization = none)
    (hroom : pool.length < cfg.maxWorkers)
    (hfresh : pool.lookup ("reviewer-" ++ specialization ++ "-" ++ shortUuid) = none) :
    (ensureReviewerAvailable cfg activeReviewers pool specialization shortUuid true).result =
        .ok ("reviewer-" ++ specialization ++ "-" ++ shortUuid) ∧
    (ensureReviewerAvailable cfg activeReviewers pool specialization
          shortUuid true).pool.lookup ("reviewer-" ++ specialization ++ "-" ++ shortUuid) =
        some { id := "reviewer-" ++ specialization ++ "-" ++ shortUuid, workingDir := "./",
               status := WorkerStatus.idle } ∧
    (ensureReviewerAvailable cfg activeReviewers pool specialization
          shortUuid true).activeReviewers.lookup specialization =
        some ("reviewer-" ++ specialization ++ "-" ++ shortUuid) ∧
    ∀ (shortUuid2 : String) (sessionOk2 : Bool),
      ensureReviewerAvailable cfg
          (ensureReviewerAvailable cfg activeReviewers pool specialization
            shortUuid true).activeReviewers
          (ensureReviewerAvailable cfg activeReviewers pool specialization shortUuid true).pool
          specialization shortUuid2 sessionOk2 =
        ⟨(ensureReviewerAvailable cfg activeReviewers pool specialization
            shortUuid true).activeReviewers,
          (ensureReviewerAvailable cfg activeReviewers pool specialization shortUuid true).pool,
          .ok ("reviewer-" ++ specialization ++ "-" ++ shortUuid)⟩ := by
  have hnotle : ¬ (cfg.maxWorkers ≤ pool.length) := by omega
  have hspawn : spawnWorker cfg pool
      { taskId := "reviewer-" ++ specialization ++ "-" ++ shortUuid, workingDir := "./",
        systemPrompt := reviewerSystemPrompt specialization, mcpServers := some [] } true =
      (pool ++ [("reviewer-" ++ specialization ++ "-" ++ shortUuid,
        { id := "reviewer-" ++ specialization ++ "-" ++ shortUuid, workingDir := "./",
          status := WorkerStatus.idle })], .ok
        { id := "reviewer-" ++ specialization ++ "-" ++ shortUuid, workingDir := "./",
          status := WorkerStatus.idle }) := by
    unfold spawnWorker
    rw [if_neg hnotle]
    rw [show (pool.lookup ("reviewer-" ++ specialization ++ "-" ++ shortUuid)).isSome = false by
      rw [hfresh]; rfl]
    simp
  have hr : ensureReviewerAvailable cfg activeReviewers pool specialization shortUuid true =
      ⟨assocSet activeReviewers specialization
          ("reviewer-" ++ specialization ++ "-" ++ shortUuid),
        pool ++ [("reviewer-" ++ specialization ++ "-" ++ shortUuid,
          { id := "reviewer-" ++ specialization ++ "-" ++ shortUuid, workingDir := "./",
            status := WorkerStatus.idle })],
        .ok ("reviewer-" ++ specialization ++ "-" ++ shortUuid)⟩ := by
    simp only [ensureReviewerAvailable, hnone, hspawn]
  refine ⟨by rw [hr], ?_, ?_, ?_⟩
  · rw [hr]
    exact (lookup_append_of_none _ pool _ hfresh).trans (lookup_cons_self _ _ _)
  · rw [hr]
    exact assocSet_lookup_self activeReviewers specialization _
  · intro shortUuid2 sessionOk2
    rw [hr]
    unfold ensureReviewerAvailable
    rw [assocSet_lookup_self activeReviewers specialization _]

/-- Witness for `ensureReviewer_spawn_records_and_reuses` at the concrete
specialization `style`, uuid `abcd1234`, empty map and pool. -/
theorem ensureReviewer_spawn_records_and_reuses_witness :
    (ensureReviewerAvailable ⟨10, 3000, true⟩ [] [] "style" "abcd1234" true).result =
        .ok ("reviewer-style-abcd1234") ∧
      ensureReviewerAvailable ⟨10, 3000, true⟩
          (ensureReviewerAvailable ⟨10, 3000, true⟩ [] [] "style" "abcd1234" true).activeReviewers
          (ensureReviewerAvailable ⟨10, 3000, true⟩ [] [] "style" "abcd1234" true).pool
          "style" "ffff0000" false =
        ⟨(ensureReviewerAvailable ⟨10, 3000, true⟩ [] [] "style" "abcd1234" true).activeReviewers,
          (ensureReviewerAvailable ⟨10, 3000, true⟩ [] [] "style" "abcd1234" true).pool,
          .ok ("reviewer-style-abcd1234")⟩ := by
  have h := ensureReviewer_spawn_records_and_reuses ⟨10, 3000, true⟩ [] [] "style" "abcd1234"
    (by rfl) (by decide) (by rfl)
  exact ⟨h.1, h.2.2.2 "ffff0000" false⟩

/-! ## Strategy frame theorems (claim C4) -/

theorem insertByKey_perm (key : String → Nat) (x : String) (l : List String) :
    (insertByKey key x l).Perm (x :: l) := by
  induction l with
  | nil => simp [insertByKey]
  | cons y ys ih =>
    unfold insertByKey
    split
    · exact List.Perm.refl _
    · exact (List.Perm.cons y ih).trans (List.Perm.swap x y ys)

theorem stableSortByKey_perm (key : String → Nat) (l : List String) :
    (stableSortByKey key l).Perm l := by
  induction l with
  | nil => simp [stableSortByKey]
  | cons x xs ih =>
    unfold stableSortByKey
    exact (insertByKey_perm key x _).trans (List.Perm.cons x ih)

/-- C4 counterexample: `CriticalPathStrategy.selectTasks` does not leave
its arguments unchanged.  On the ready list `["D", "A"]` of `chainGraph`
(critical path `[A, B, C]`) the in-place `sort` leaves the caller's
`availableTasks` array reading `["A", "D"]`. -/
theorem criticalPath_sort_mutates_counterexample :
    (CriticalPathStrategy.selectTasks ["D", "A"] 1 (some chainGraph)).availableTasksAfter =
        ["A", "D"] ∧
      (["A", "D"] : List String) ≠ ["D", "A"] := by
  constructor
  · decide
  · decide

/-- C4 (amended): every strategy is a total function;
`MaxParallelStrategy`, `RateAwareStrategy`, and `CriticalPathStrategy`
without a graph leave `availableTasks` unchanged; `CriticalPathStrategy`
with a graph instead sorts the caller's array in place — afterwards it
holds the critical-path stable sort of its previous contents, a
permutation of the input rather than the input itself. -/
theorem strategies_frame (availableTasks : List String) (availableWorkers : Nat) :
    (MaxParallelStrategy.selectTasks availableTasks availableWorkers).availableTasksAfter =
        availableTasks ∧
    (∀ maxRPM est currentRPM,
        (RateAwareStrategy.selectTasksCall maxRPM est availableTasks availableWorkers
            currentRPM).availableTasksAfter = availableTasks) ∧
    (CriticalPathStrategy.selectTasks availableTasks availableWorkers none).availableTasksAfter =
        availableTasks ∧
    ∀ g : TaskGraph,
      (CriticalPathStrategy.selectTasks availableTasks availableWorkers
            (some g)).availableTasksAfter =
          stableSortByKey (criticalPathKey g.getCriticalPath) availableTasks ∧
        ((CriticalPathStrategy.selectTasks availableTasks availableWorkers
            (some g)).availableTasksAfter).Perm availableTasks :=
  ⟨rfl, fun _ _ _ => rfl, rfl, fun _ => ⟨rfl, stableSortByKey_perm _ _⟩⟩

/-! ## WorkspaceAnalyzer theorems (claim C8) -/

theorem checkConflict_severity (a w p : Bool) (t1 t2 : TaskNode) (c : WorkspaceConflict)
    (h : checkConflict a w p t1 t2 = some c) : c.severity = Severity.error := by
  simp only [checkConflict] at h
  split at h
  · injection h with h2
    subst h2
    rfl
  · cases h

theorem collectConflicts_severity (a w p : Bool) (tasks : List TaskNode) :
    ∀ c ∈ collectConflicts a w p tasks, c.severity = Severity.error := by
  induction tasks with
  | nil => intro c hc; simp [collectConflicts] at hc
  | cons t ts ih =>
    intro c hc
    unfold collectConflicts at hc
    rcases List.mem_append.mp hc with h1 | h2
    · rcases List.mem_filterMap.mp h1 with ⟨t2, _, hck⟩
      exact checkConflict_severity a w p t t2 c hck
    · exact ih c h2

/-- C8: every conflict produced by `validateAssignments` has severity
`error`, and consequently, for every task list, platform flag, and every
choice of the other configuration options, `validateAssignments` returns
the same `isValid` with `strictMode = true` as with
`strictMode = false`. -/
theorem validateAssignments_severity_and_strict :
    (∀ (config : WorkspaceAnalyzerConfig) (win32 : Bool) (tasks : List TaskNode),
        ∀ c ∈ (WorkspaceAnalyzer.validateAssignments config win32 tasks).conflicts,
          c.severity = Severity.error) ∧
      ∀ (allowNestedDirs supportWildcards win32 : Bool) (tasks : List TaskNode),
        (WorkspaceAnalyzer.validateAssignments ⟨true, allowNestedDirs, supportWildcards⟩ win32
            tasks).isValid =
          (WorkspaceAnalyzer.validateAssignments ⟨false, allowNestedDirs, supportWildcards⟩ win32
            tasks).isValid := by
  constructor
  · intro config win32 tasks c hc
    exact collectConflicts_severity config.allowNestedDirs config.supportWildcards win32 tasks c hc
  · intro a w win32 tasks
    have hfilter :
        (collectConflicts a w win32 tasks).filter (fun c => c.severity = Severity.error) =
          collectConflicts a w win32 tasks := by
      apply List.filter_eq_self.mpr
      intro c hc
      rw [collectConflicts_severity a w win32 tasks c hc]
      simp
    show decide ((collectConflicts a w win32 tasks).length = 0) =
      decide (((collectConflicts a w win32 tasks).filter
        (fun c => c.severity = Severity.error)).length = 0)
    rw [hfilter]

/-- Witness for `validateAssignments_severity_and_strict`: the conflict
reported for two tasks both assigned `/src` has severity `error`. -/
theorem validateAssignments_severity_and_strict_witness :
    ({ taskIds := ("t1", "t2"), conflictPath := "/src", severity := Severity.error,
       description := "Identical paths: both tasks assigned to \"/src\"" } :
        WorkspaceConflict).severity = Severity.error :=
  validateAssignments_severity_and_strict.1 ⟨true, false, true⟩ false
    [{ id := "t1", dependencies := [], dependents := [], completed := false,
       instructions := "", workspacePath := "/src" },
     { id := "t2", dependencies := [], dependents := [], completed := false,
       instructions := "", workspacePath := "/src" }]
    { taskIds := ("t1", "t2"), conflictPath := "/src", severity := Severity.error,
      description := "Identical paths: both tasks assigned to \"/src\"" }
    (by decide)

/-! ## Scheduler dispatch theorems (claim C1) -/

/-- C1 counterexample: picked ids `["A", "D"]` on `chainGraph` with the
spawn of `A` failing.  The dispatch loop marks `A` failed and emits
`task-assign-failed`, but it does not continue with `D`: the error
propagates (the loop result is the rethrown spawn error), `D` stays
`pending` and is never assigned, and `start` aborts the run. -/
theorem dispatch_abort_counterexample :
    (dispatchTasks chainGraph ⟨10, 3000, true⟩ 15 (fun taskId => !(taskId == "A"))
          { executionState := [("A", .pending), ("B", .pending), ("C", .pending), ("D", .pending)],
            workerMapping := [], currentRPM := 0, events := [] } [] ["A", "D"]).2 =
        .error ("Worker spawn timeout") ∧
      (dispatchTasks chainGraph ⟨10, 3000, true⟩ 15 (fun taskId => !(taskId == "A"))
          { executionState := [("A", .pending), ("B", .pending), ("C", .pending), ("D", .pending)],
            workerMapping := [], currentRPM := 0, events := [] } [] ["A", "D"]).1.1.executionState =
        [("A", .failed), ("B", .pending), ("C", .pending), ("D", .pending)] ∧
      (dispatchTasks chainGraph ⟨10, 3000, true⟩ 15 (fun taskId => !(taskId == "A"))
          { executionState := [("A", .pending), ("B", .pending), ("C", .pending), ("D", .pending)],
            workerMapping := [], currentRPM := 0, events := [] } [] ["A", "D"]).1.1.events =
        [SchedEvent.taskAssignFailed "A"] :=
  ⟨rfl, rfl, rfl⟩

/-- C1 (amended): when `assign(id)` fails for a picked id, that task is
marked failed and `task-assign-failed` is emitted, but the loop does not
continue with the remaining picked ids: `assignTask` rethrows, so the
dispatch of the picked list ends at the failing id with the error (the
ids after it are never processed), and the error reaches the outer
`try` of `start`, which emits `error` and rethrows — the run aborts. -/
theorem dispatch_assign_failure (g : TaskGraph) (cfg : ParallelInstanceConfig)
    (estDefault : Nat) (sessionOk : String → Bool) (st st1 : SchedulerState)
    (pool pool1 : List (String × WorkerInstance)) (pre : List String) (bad : String)
    (rest : List String) (d : TaskNode) (e : String)
    (hpre : dispatchTasks g cfg estDefault sessionOk st pool pre = ((st1, pool1), .ok ()))
    (hdetails : g.getTaskDetails bad = some d)
    (hbad : (assignTask g cfg estDefault sessionOk st1 pool1 bad).2 = .error e) :
    dispatchTasks g cfg estDefault sessionOk st pool (pre ++ bad :: rest) =
        ((assignTask g cfg estDefault sessionOk st1 pool1 bad).1, .error e) ∧
      (assignTask g cfg estDefault sessionOk st1 pool1 bad).1.1.executionState.lookup bad =
        some ExecState.failed ∧
      SchedEvent.taskAssignFailed bad ∈
        (assignTask g cfg estDefault sessionOk st1 pool1 bad).1.1.events := by
  have hfailed : (assignTask g cfg estDefault sessionOk st1 pool1 bad).1.1.executionState =
        assocSet st1.executionState bad ExecState.failed ∧
      (assignTask g cfg estDefault sessionOk st1 pool1 bad).1.1.events =
        st1.events ++ [SchedEvent.taskAssignFailed bad] := by
    unfold assignTask at hbad ⊢
    rw [hdetails] at hbad ⊢
    dsimp only at hbad ⊢
    rcases hs : spawnWorker cfg pool1
        { taskId := bad, workingDir := d.workspacePath, systemPrompt := d.instructions }
        (sessionOk bad) with ⟨poolX, rX⟩
    rw [hs] at hbad
    cases rX with
    | ok wX => exact Except.noConfusion hbad
    | error eX => exact ⟨rfl, rfl⟩
  refine ⟨?_, ?_, ?_⟩
  · induction pre generalizing st pool with
    | nil =>
      simp only [dispatchTasks] at hpre
      rw [Prod.mk.injEq] at hpre
      obtain ⟨hp, _⟩ := hpre
      rw [Prod.mk.injEq] at hp
      rw [List.nil_append, hp.1, hp.2]
      simp only [dispatchTasks]
      rcases ha : assignTask g cfg estDefault sessionOk st1 pool1 bad with ⟨⟨st2, pool2⟩, r⟩
      rw [ha] at hbad
      replace hbad : r = Except.error e := hbad
      subst hbad
      rfl
    | cons p ps ih =>
      rw [List.cons_append]
      simp only [dispatchTasks] at hpre ⊢
      rcases ha : assignTask g cfg estDefault sessionOk st pool p with ⟨⟨stA, poolA⟩, rA⟩
      rw [ha] at hpre
      cases rA with
      | error eA => exact Except.noConfusion (congrArg Prod.snd hpre)
      | ok u => exact ih stA poolA hpre
  · rw [hfailed.1]
    exact assocSet_lookup_self st1.executionState bad ExecState.failed
  · rw [hfailed.2]
    exact List.mem_append_right st1.events (List.mem_singleton.mpr rfl)

/-- Witness for `dispatch_assign_failure`: pre `["D"]`, failing id `"A"`,
remaining `["B"]` on `chainGraph` with spawn failing exactly for `A`. -/
theorem dispatch_assign_failure_witness :
    (assignTask chainGraph ⟨10, 3000, true⟩ 15 (fun taskId => !(taskId == "A"))
        { executionState := [("A", ExecState.pending), ("B", ExecState.pending),
            ("C", ExecState.pending), ("D", ExecState.running)],
          workerMapping := [("D", "D")], currentRPM := 15,
          events := [SchedEvent.taskAssigned "D" "D"] }
        [("D", { id := "D", workingDir := "/d", status := WorkerStatus.idle })]
        "A").1.1.executionState.lookup "A" = some ExecState.failed :=
  (dispatch_assign_failure chainGraph ⟨10, 3000, true⟩ 15 (fun taskId => !(taskId == "A"))
      { executionState := [("A", ExecState.pending), ("B", ExecState.pending),
          ("C", ExecState.pending), ("D", ExecState.pending)],
        workerMapping := [], currentRPM := 0, events := [] }
      { executionState := [("A", ExecState.pending), ("B", ExecState.pending),
          ("C", ExecState.pending), ("D", ExecState.running)],
        workerMapping := [("D", "D")], currentRPM := 15,
        events := [SchedEvent.taskAssigned "D" "D"] }
      []
      [("D", { id := "D", workingDir := "/d", status := WorkerStatus.idle })]
      ["D"] "A" ["B"]
      { id := "A", dependencies := [], dependents := ["B"], completed := false,
        instructions := "a", workspacePath := "/a" }
      "Worker spawn timeout"
      (by rfl) (by rfl) (by rfl)).2.1

/-! ## IPCChannel queueing theorems (claim C10) -/

theorem mem_of_lookup {β : Type} (k : String) (v : β) (l : List (String × β))
    (h : l.lookup k = some v) : (k, v) ∈ l := by
  induction l with
  | nil => cases h
  | cons p rest ih =>
    by_cases hpk : p.1 = k
    · rw [show p = (p.1, p.2) from rfl, hpk, lookup_cons_self] at h
      injection h with hv
      rw [show p = (p.1, p.2) from rfl, hpk, hv]
      exact List.mem_cons_self _ _
    · rw [show p = (p.1, p.2) from rfl, lookup_cons_ne k p.1 p.2 rest hpk] at h
      exact List.mem_cons_of_mem p (ih h)

theorem assocSet_mem_ne {β : Type} (l : List (String × β)) (k : String) (v : β) (p : String × β)
    (hp : p ∈ assocSet l k v) (hne : p.1 ≠ k) : p ∈ l := by
  unfold assocSet at hp
  split at hp
  · rcases List.mem_map.mp hp with ⟨q, hq, hmap⟩
    by_cases hqk : q.1 = k
    · rw [if_pos hqk] at hmap
      rw [← hmap] at hne
      simp at hne
    · rw [if_neg hqk] at hmap
      rw [← hmap]
      exact hq
  · rcases List.mem_append.mp hp with h1 | h2
    · exact h1
    · rw [List.mem_singleton] at h2
      rw [h2] at hne
      simp at hne

theorem mem_allQueued_of_lookup (queues : List (String × List IPCMessage)) (k : String)
    (x : IPCMessage) (hx : x ∈ (queues.lookup k).getD []) : x ∈ allQueued queues := by
  cases hq : queues.lookup k with
  | none => rw [hq] at hx; simp at hx
  | some q =>
    rw [hq] at hx
    simp only [Option.getD_some] at hx
    exact List.mem_flatMap.mpr ⟨(k, q), mem_of_lookup k q queues hq, hx⟩

theorem mem_allQueued_of_mem (queues : List (String × List IPCMessage))
    (p : String × List IPCMessage) (x : IPCMessage) (hp : p ∈ queues) (hx : x ∈ p.2) :
    x ∈ allQueued queues :=
  List.mem_flatMap.mpr ⟨p, hp, hx⟩

theorem spliceFirst_of_all_false (g : IPCMessage → Bool) (q : List IPCMessage)
    (h : ∀ x ∈ q, g x = false) : spliceFirst g q = none := by
  induction q with
  | nil => rfl
  | cons m ms ih =>
    unfold spliceFirst
    rw [if_neg (by rw [h m (List.mem_cons_self m ms)]; simp)]
    rw [ih (fun x hx => h x (List.mem_cons_of_mem m hx))]

theorem spliceFirst_append_match (g : IPCMessage → Bool) (q2 : List IPCMessage)
    (m : IPCMessage) (hq2 : ∀ x ∈ q2, g x = false) (hm : g m = true) :
    spliceFirst g (q2 ++ [m]) = some (m, q2) := by
  induction q2 with
  | nil =>
    rw [List.nil_append]
    unfold spliceFirst
    rw [if_pos hm]
  | cons a as ih =>
    have ha : g a = false := hq2 a (List.mem_cons_self a as)
    rw [List.cons_append]
    unfold spliceFirst
    rw [if_neg (by rw [ha]; simp)]
    rw [ih (fun x hx => hq2 x (List.mem_cons_of_mem a hx))]

theorem scanQueues_found (g : IPCMessage → Bool) (k : String) (q2 : List IPCMessage)
    (m : IPCMessage) (hq2 : ∀ x ∈ q2, g x = false) (hm : g m = true) :
    ∀ qs : List (String × List IPCMessage),
      qs.lookup k = some (q2 ++ [m]) →
      (∀ p ∈ qs, p.1 ≠ k → ∀ x ∈ p.2, g x = false) →
      ∃ qs2, scanQueues g qs = some (m, qs2) ∧ qs2.lookup k = some q2 := by
  intro qs
  induction qs with
  | nil => intro h _; cases h
  | cons p rest ih =>
    intro hk hothers
    by_cases hpk : p.1 = k
    · rw [show p = (p.1, p.2) from rfl, hpk, lookup_cons_self] at hk
      injection hk with hq
      refine ⟨(p.1, q2) :: rest, ?_, ?_⟩
      · rw [show p = (p.1, p.2) from rfl]
        unfold scanQueues
        rw [hq, spliceFirst_append_match g q2 m hq2 hm]
      · rw [hpk, lookup_cons_self]
    · rw [show p = (p.1, p.2) from rfl, lookup_cons_ne k p.1 p.2 rest hpk] at hk
      have hhead : ∀ x ∈ p.2, g x = false :=
        hothers p (List.mem_cons_self p rest) hpk
      rcases ih hk (fun q hq hqk => hothers q (List.mem_cons_of_mem p hq) hqk) with
        ⟨rest2, hscan, hlook⟩
      refine ⟨(p.1, p.2) :: rest2, ?_, ?_⟩
      · rw [show p = (p.1, p.2) from rfl]
        unfold scanQueues
        rw [spliceFirst_of_all_false g p.2 hhead, hscan]
      · rw [lookup_cons_ne k p.1 p.2 rest2 hpk]
        exact hlook

/-- C10: when `waitForMessage` resolves with a message that arrived after
the call (via the `message` event listener rather than the initial queue
scan), `handleMessage` took the enqueue branch: the message was appended
to its destination's queue and resolution does not remove it.  A
subsequent `waitForMessage` whose filter matches it (and nothing queued
before it) finds it by the initial queue scan and returns the same
message — and only that scan path removes it from the queue. -/
theorem waitForMessage_requeue (st : IPCState) (m : IPCMessage) (f g : IPCMessage → Bool)
    (hcorr : corrResolves st.pendingIds m = false)
    (hf : f m = true) (hg : g m = true)
    (hfresh : ∀ m2 ∈ allQueued st.messageQueue, g m2 = false) :
    (handleMessage st m).2 = HandleResult.enqueued ∧
      ∃ q2, ((handleMessage st m).1.messageQueue.lookup m.toId).getD [] = q2 ++ [m] ∧
        (∀ x ∈ q2, g x = false) ∧
        ∃ qs2, scanQueues g (handleMessage st m).1.messageQueue = some (m, qs2) ∧
          qs2.lookup m.toId = some q2 := by
  have hh : handleMessage st m =
      ({ st with messageQueue := enqueueMessage st.maxQueueSize st.messageQueue m },
        HandleResult.enqueued) := by
    unfold handleMessage
    rw [if_neg (by rw [hcorr]; simp)]
  rw [hh]
  refine ⟨rfl, ?_⟩
  set q := (st.messageQueue.lookup m.toId).getD [] with hq
  set q2 := if st.maxQueueSize ≤ q.length then q.drop 1 else q with hq2def
  have hq2sub : ∀ x ∈ q2, x ∈ q := by
    intro x hx
    rw [hq2def] at hx
    split at hx
    · exact List.mem_of_mem_drop hx
    · exact hx
  have hq2false : ∀ x ∈ q2, g x = false := fun x hx =>
    hfresh x (mem_allQueued_of_lookup st.messageQueue m.toId x (hq2sub x hx))
  have henq : (enqueueMessage st.maxQueueSize st.messageQueue m).lookup m.toId =
      some (q2 ++ [m]) := by
    unfold enqueueMessage
    exact assocSet_lookup_self st.messageQueue m.toId (q2 ++ [m])
  refine ⟨q2, ?_, hq2false, ?_⟩
  · rw [henq]
    rfl
  · exact scanQueues_found g m.toId q2 m hq2false hg
      (enqueueMessage st.maxQueueSize st.messageQueue m) henq
      (fun p hp hpk x hx =>
        hfresh x (mem_allQueued_of_mem st.messageQueue p x
          (assocSet_mem_ne st.messageQueue m.toId (q2 ++ [m]) p hp hpk) hx))

/-- Witness for `waitForMessage_requeue`: a heartbeat message arriving on
an empty channel state. -/
theorem waitForMessage_requeue_witness :
    (handleMessage ⟨[], [], 1000⟩
          ⟨"m1", IPCMessageType.heartbeat, "w1", "orchestrator", "p", 0, none⟩).2 =
        HandleResult.enqueued ∧
      ∃ q2, ((handleMessage ⟨[], [], 1000⟩
            ⟨"m1", IPCMessageType.heartbeat, "w1", "orchestrator", "p", 0,
              none⟩).1.messageQueue.lookup "orchestrator").getD [] = q2 ++
            [⟨"m1", IPCMessageType.heartbeat, "w1", "orchestrator", "p", 0, none⟩] ∧
        (∀ x ∈ q2, (fun x2 => x2.id == "m1") x = false) ∧
        ∃ qs2, scanQueues (fun x2 => x2.id == "m1")
              (handleMessage ⟨[], [], 1000⟩
                ⟨"m1", IPCMessageType.heartbeat, "w1", "orchestrator", "p", 0,
                  none⟩).1.messageQueue = some
              (⟨"m1", IPCMessageType.heartbeat, "w1", "orchestrator", "p", 0, none⟩, qs2) ∧
          qs2.lookup "orchestrator" = some q2 :=
  waitForMessage_requeue ⟨[], [], 1000⟩
    ⟨"m1", IPCMessageType.heartbeat, "w1", "orchestrator", "p", 0, none⟩
    (fun _ => true) (fun x2 => x2.id == "m1") (by rfl) (by rfl) (by rfl)
    (by intro m2 hm2; simp [allQueued] at hm2)

/-! ## TaskGraph construction theorems (claim C5) -/

theorem lookup_isSome_iff {β : Type} (k : String) (l : List (String × β)) :
    (l.lookup k).isSome = true ↔ ∃ p ∈ l, p.1 = k := by
  induction l with
  | nil => simp [List.lookup]
  | cons p rest ih =>
    by_cases hpk : p.1 = k
    · constructor
      · intro _; exact ⟨p, List.mem_cons_self p rest, hpk⟩
      · intro _
        rw [show p = (p.1, p.2) from rfl, hpk, lookup_cons_self]
        rfl
    · rw [show p = (p.1, p.2) from rfl, lookup_cons_ne k p.1 p.2 rest hpk, ih]
      constructor
      · rintro ⟨q, hq, hqk⟩
        exact ⟨q, List.mem_cons_of_mem _ hq, hqk⟩
      · rintro ⟨q, hq, hqk⟩
        rcases List.mem_cons.mp hq with h1 | h2
        · exfalso
          rw [h1] at hqk
          exact hpk hqk
        · exact ⟨q, h2, hqk⟩

theorem nodup_subset_length_le (V keys : List String) (hnd : V.Nodup)
    (hsub : ∀ v ∈ V, v ∈ keys) : V.length ≤ keys.length := by
  have h1 : V.toFinset.card = V.length := List.toFinset_card_of_nodup hnd
  have h2 : V.toFinset ⊆ keys.toFinset := by
    intro a ha
    rw [List.mem_toFinset] at ha ⊢
    exact hsub a ha
  calc V.length = V.toFinset.card := h1.symm
    _ ≤ keys.toFinset.card := Finset.card_le_card h2
    _ ≤ keys.length := List.toFinset_card_le keys

theorem mem_insertUniq (l : List String) (y x : String) :
    x ∈ insertUniq l y ↔ x ∈ l ∨ x = y := by
  unfold insertUniq
  split
  case isTrue hy =>
    constructor
    · intro h
      exact Or.inl h
    · rintro (h | rfl)
      · exact h
      · exact hy
  case isFalse hy => simp [List.mem_append]

theorem mem_foldl_insertUniq (l : List String) :
    ∀ (acc : List String) (x : String), x ∈ l.foldl insertUniq acc ↔ x ∈ acc ∨ x ∈ l := by
  induction l with
  | nil => intro acc x; simp
  | cons a as ih =>
    intro acc x
    rw [List.foldl_cons, ih, mem_insertUniq]
    constructor
    · rintro ((h | rfl) | h)
      · exact Or.inl h
      · exact Or.inr (List.mem_cons_self _ _)
      · exact Or.inr (List.mem_cons_of_mem a h)
    · rintro (h | h)
      · exact Or.inl (Or.inl h)
      · rcases List.mem_cons.mp h with h1 | h2
        · exact Or.inl (Or.inr h1)
        · exact Or.inr h2

theorem assocSet_fresh {β : Type} (l : List (String × β)) (k : String) (v : β)
    (h : l.lookup k = none) : assocSet l k v = l ++ [(k, v)] := by
  unfold assocSet
  rw [if_neg (by rw [h]; simp)]

theorem buildNodes_aux (tasks : List TaskWithDependencies) :
    ∀ acc : List (String × TaskNode), (taskIds tasks).Nodup →
      (∀ t ∈ tasks, acc.lookup t.id = none) →
      tasks.foldl (fun acc t => assocSet acc t.id (mkNode t)) acc =
        acc ++ tasks.map (fun t => (t.id, mkNode t)) := by
  induction tasks with
  | nil => intro acc _ _; simp
  | cons t ts ih =>
    intro acc hnd hfresh
    have hnd2 : (taskIds ts).Nodup := by
      rw [taskIds, List.map_cons] at hnd
      exact hnd.of_cons
    have hid : t.id ∉ taskIds ts := by
      rw [taskIds, List.map_cons] at hnd
      exact (List.nodup_cons.mp hnd).1
    have hfresh2 : ∀ s ∈ ts, (acc ++ [(t.id, mkNode t)]).lookup s.id = none := by
      intro s hs
      have hne : t.id ≠ s.id := by
        intro hh
        exact hid (hh ▸ List.mem_map_of_mem (fun u => u.id) hs)
      rw [lookup_append, hfresh s (List.mem_cons_of_mem t hs),
        lookup_cons_ne s.id t.id (mkNode t) [] hne]
      rfl
    rw [List.foldl_cons,
      assocSet_fresh acc t.id (mkNode t) (hfresh t (List.mem_cons_self t ts)),
      ih (acc ++ [(t.id, mkNode t)]) hnd2 hfresh2, List.map_cons, List.append_assoc]
    rfl

theorem buildNodes_eq_map (tasks : List TaskWithDependencies)
    (hids : (taskIds tasks).Nodup) :
    buildNodes tasks = tasks.map (fun t => (t.id, mkNode t)) := by
  unfold buildNodes
  rw [buildNodes_aux tasks [] hids (fun t _ => rfl)]
  rfl

theorem lookup_tasks_map_mem (tasks : List TaskWithDependencies) (x : String) (n : TaskNode)
    (h : (tasks.map (fun t => (t.id, mkNode t))).lookup x = some n) :
    ∃ t ∈ tasks, t.id = x ∧ n = mkNode t := by
  induction tasks with
  | nil => cases h
  | cons t ts ih =>
    rw [List.map_cons] at h
    by_cases htx : t.id = x
    · rw [htx, lookup_cons_self] at h
      injection h with hn
      exact ⟨t, List.mem_cons_self t ts, htx, hn.symm⟩
    · rw [lookup_cons_ne x t.id (mkNode t) _ htx] at h
      rcases ih h with ⟨u, hu, hux, hn⟩
      exact ⟨u, List.mem_cons_of_mem t hu, hux, hn⟩

theorem lookup_tasks_map_self (tasks : List TaskWithDependencies)
    (hids : (taskIds tasks).Nodup) (t : TaskWithDependencies) (ht : t ∈ tasks) :
    (tasks.map (fun t => (t.id, mkNode t))).lookup t.id = some (mkNode t) := by
  induction tasks with
  | nil => cases ht
  | cons u ts ih =>
    have hnd2 : (taskIds ts).Nodup := by
      rw [taskIds, List.map_cons] at hids
      exact hids.of_cons
    have hu : u.id ∉ taskIds ts := by
      rw [taskIds, List.map_cons] at hids
      exact (List.nodup_cons.mp hids).1
    rcases List.mem_cons.mp ht with h1 | h2
    · rw [h1, List.map_cons, lookup_cons_self]
    · have hne : u.id ≠ t.id := by
        intro hh
        exact hu (hh ▸ List.mem_map_of_mem (fun v => v.id) h2)
      rw [List.map_cons, lookup_cons_ne t.id u.id (mkNode u) _ hne]
      exact ih hnd2 h2

theorem addDependentTo_deps (nodes : List (String × TaskNode)) (depId dep x : String) :
    ((addDependentTo nodes depId dep).lookup x).map (fun n => n.dependencies) =
      ((nodes.lookup x).map (fun n => n.dependencies)) := by
  induction nodes with
  | nil => rfl
  | cons p rest ih =>
    unfold addDependentTo at ih ⊢
    rw [List.map_cons]
    by_cases hpd : p.1 = depId
    · rw [if_pos hpd]
      by_cases hpx : p.1 = x
      · subst hpx
        rw [lookup_cons_self, show p = (p.1, p.2) from rfl, lookup_cons_self]
        rfl
      · rw [lookup_cons_ne x p.1 _ _ hpx, show p = (p.1, p.2) from rfl,
          lookup_cons_ne x p.1 p.2 rest hpx]
        exact ih
    · rw [if_neg hpd]
      by_cases hpx : p.1 = x
      · subst hpx
        rw [show p = (p.1, p.2) from rfl, lookup_cons_self, lookup_cons_self]
      · rw [show p = (p.1, p.2) from rfl, lookup_cons_ne x p.1 p.2 _ hpx,
          lookup_cons_ne x p.1 p.2 rest hpx]
        exact ih

theorem addDependentTo_keys (nodes : List (String × TaskNode)) (depId dep : String) :
    keysOf (addDependentTo nodes depId dep) = keysOf nodes := by
  unfold keysOf addDependentTo
  rw [List.map_map]
  apply List.map_congr_left
  intro p _
  simp only [Function.comp]
  split <;> rfl

theorem isSome_of_depsMap_eq {o1 o2 : Option TaskNode}
    (h : o1.map (fun n => n.dependencies) = o2.map (fun n => n.dependencies)) :
    o1.isSome = o2.isSome := by
  cases o1 <;> cases o2 <;> simp_all

theorem edge_of_depsMap_eq {o1 o2 : Option TaskNode}
    (h : o1.map (fun n => n.dependencies) = o2.map (fun n => n.dependencies)) (y : String) :
    (∃ n, o1 = some n ∧ y ∈ n.dependencies) ↔ (∃ n, o2 = some n ∧ y ∈ n.dependencies) := by
  cases o1 <;> cases o2 <;> simp_all

theorem addDependentsFor_preserves (nodeId : String) :
    ∀ (deps : List String) (nodes nodes2 : List (String × TaskNode)),
      addDependentsFor nodeId deps nodes = .ok nodes2 →
      (∀ x, ((nodes2.lookup x).map (fun n => n.dependencies)) =
          ((nodes.lookup x).map (fun n => n.dependencies))) ∧
        keysOf nodes2 = keysOf nodes := by
  intro deps
  induction deps with
  | nil =>
    intro nodes nodes2 h
    injection h with h2
    subst h2
    exact ⟨fun x => rfl, rfl⟩
  | cons d rest ih =>
    intro nodes nodes2 h
    unfold addDependentsFor at h
    cases hl : nodes.lookup d with
    | none => rw [hl] at h; cases h
    | some n =>
      rw [hl] at h
      replace h : addDependentsFor nodeId rest (addDependentTo nodes d nodeId) = .ok nodes2 := h
      rcases ih (addDependentTo nodes d nodeId) nodes2 h with ⟨hdeps, hkeys⟩
      refine ⟨fun x => ?_, ?_⟩
      · rw [hdeps x, addDependentTo_deps]
      · rw [hkeys, addDependentTo_keys]

theorem addDependentsFor_ok_iff (nodeId : String) :
    ∀ (deps : List String) (nodes : List (String × TaskNode)),
      (∃ nodes2, addDependentsFor nodeId deps nodes = .ok nodes2) ↔
        ∀ d ∈ deps, (nodes.lookup d).isSome = true := by
  intro deps
  induction deps with
  | nil =>
    intro nodes
    constructor
    · intro _ d hd
      simp at hd
    · intro _
      exact ⟨nodes, rfl⟩
  | cons d rest ih =>
    intro nodes
    constructor
    · rintro ⟨nodes2, h⟩ e he
      unfold addDependentsFor at h
      cases hl : nodes.lookup d with
      | none => rw [hl] at h; cases h
      | some n =>
        rw [hl] at h
        replace h : addDependentsFor nodeId rest (addDependentTo nodes d nodeId) = .ok nodes2 := h
        rcases List.mem_cons.mp he with h1 | h2
        · rw [h1, hl]
          rfl
        · have h3 := (ih (addDependentTo nodes d nodeId)).mp ⟨nodes2, h⟩ e h2
          rw [← isSome_of_depsMap_eq (addDependentTo_deps nodes d nodeId e)]
          exact h3
    · intro hall
      have hd := hall d (List.mem_cons_self d rest)
      cases hl : nodes.lookup d with
      | none => rw [hl] at hd; cases hd
      | some n =>
        have hrest : ∀ e ∈ rest, ((addDependentTo nodes d nodeId).lookup e).isSome = true := by
          intro e he
          rw [isSome_of_depsMap_eq (addDependentTo_deps nodes d nodeId e)]
          exact hall e (List.mem_cons_of_mem d he)
        rcases (ih (addDependentTo nodes d nodeId)).mpr hrest with ⟨nodes2, h2⟩
        refine ⟨nodes2, ?_⟩
        unfold addDependentsFor
        rw [hl]
        exact h2

theorem addAllDependents_preserves :
    ∀ (pairs : List (String × List String)) (nodes nodes2 : List (String × TaskNode)),
      addAllDependents pairs nodes = .ok nodes2 →
      (∀ x, ((nodes2.lookup x).map (fun n => n.dependencies)) =
          ((nodes.lookup x).map (fun n => n.dependencies))) ∧
        keysOf nodes2 = keysOf nodes := by
  intro pairs
  induction pairs with
  | nil =>
    intro nodes nodes2 h
    injection h with h2
    subst h2
    exact ⟨fun x => rfl, rfl⟩
  | cons pr rest ih =>
    intro nodes nodes2 h
    obtain ⟨nodeId, deps⟩ := pr
    unfold addAllDependents at h
    cases hf : addDependentsFor nodeId deps nodes with
    | error e => rw [hf] at h; cases h
    | ok mid =>
      rw [hf] at h
      replace h : addAllDependents rest mid = .ok nodes2 := h
      rcases ih mid nodes2 h with ⟨hdeps, hkeys⟩
      rcases addDependentsFor_preserves nodeId deps nodes mid hf with ⟨hdeps2, hkeys2⟩
      refine ⟨fun x => ?_, ?_⟩
      · rw [hdeps x, hdeps2 x]
      · rw [hkeys, hkeys2]

theorem addAllDependents_ok_iff :
    ∀ (pairs : List (String × List String)) (nodes : List (String × TaskNode)),
      (∃ nodes2, addAllDependents pairs nodes = .ok nodes2) ↔
        ∀ p ∈ pairs, ∀ d ∈ p.2, (nodes.lookup d).isSome = true := by
  intro pairs
  induction pairs with
  | nil =>
    intro nodes
    constructor
    · intro _ p hp
      simp at hp
    · intro _
      exact ⟨nodes, rfl⟩
  | cons pr rest ih =>
    intro nodes
    obtain ⟨nodeId, deps⟩ := pr
    constructor
    · rintro ⟨nodes2, h⟩ p hp d hd
      unfold addAllDependents at h
      cases hf : addDependentsFor nodeId deps nodes with
      | error e => rw [hf] at h; cases h
      | ok mid =>
        rw [hf] at h
        replace h : addAllDependents rest mid = .ok nodes2 := h
        rcases List.mem_cons.mp hp with h1 | h2
        · have h3 := (addDependentsFor_ok_iff nodeId deps nodes).mp ⟨mid, hf⟩
          rw [h1] at hd
          exact h3 d hd
        · have h3 := (ih mid).mp ⟨nodes2, h⟩ p h2 d hd
          rw [← isSome_of_depsMap_eq ((addDependentsFor_preserves nodeId deps nodes mid hf).1 d)]
          exact h3
    · intro hall
      rcases (addDependentsFor_ok_iff nodeId deps nodes).mpr
          (fun d hd => hall (nodeId, deps) (List.mem_cons_self _ _) d hd) with ⟨mid, hf⟩
      have hrest : ∀ p ∈ rest, ∀ d ∈ p.2, (mid.lookup d).isSome = true := by
        intro p hp d hd
        rw [isSome_of_depsMap_eq ((addDependentsFor_preserves nodeId deps nodes mid hf).1 d)]
        exact hall p (List.mem_cons_of_mem _ hp) d hd
      rcases (ih mid).mpr hrest with ⟨nodes2, h2⟩
      refine ⟨nodes2, ?_⟩
      unfold addAllDependents
      rw [hf]
      exact h2

theorem except_error_iff {α β : Type} (r : Except α β) :
    (∃ e, r = .error e) ↔ ¬ ∃ v, r = .ok v := by
  cases r <;> simp

theorem buildNodes_lookup_isSome (tasks : List TaskWithDependencies)
    (hids : (taskIds tasks).Nodup) (d : String) :
    ((buildNodes tasks).lookup d).isSome = true ↔ d ∈ taskIds tasks := by
  rw [buildNodes_eq_map tasks hids, lookup_isSome_iff]
  constructor
  · rintro ⟨p, hp, hpk⟩
    rcases List.mem_map.mp hp with ⟨t, ht, hteq⟩
    rw [← hteq] at hpk
    rw [← hpk]
    exact List.mem_map_of_mem (fun u => u.id) ht
  · intro hd
    rcases List.mem_map.mp hd with ⟨t, ht, hteq⟩
    exact ⟨(t.id, mkNode t), List.mem_map_of_mem _ ht, hteq⟩

theorem buildGraph_error_iff (tasks : List TaskWithDependencies)
    (hids : (taskIds tasks).Nodup) :
    (∃ e, buildGraph tasks = .error e) ↔ hasDanglingDep tasks := by
  rw [except_error_iff]
  unfold buildGraph
  rw [addAllDependents_ok_iff]
  constructor
  · intro hno
    rcases not_forall.mp hno with ⟨p, hp⟩
    rcases not_forall.mp hp with ⟨hpmem, hp2⟩
    rcases not_forall.mp hp2 with ⟨d, hd⟩
    rcases not_forall.mp hd with ⟨hdmem, hd2⟩
    rcases List.mem_map.mp hpmem with ⟨q, hq, hqeq⟩
    rw [buildNodes_eq_map tasks hids] at hq
    rcases List.mem_map.mp hq with ⟨t, ht, hteq⟩
    refine ⟨t, ht, d, ?_, ?_⟩
    · rw [← hteq] at hqeq
      rw [← hqeq] at hdmem
      simp only at hdmem
      exact ((mem_foldl_insertUniq t.dependencies [] d).mp hdmem).resolve_left
        (by simp)
    · intro hd3
      exact hd2 ((buildNodes_lookup_isSome tasks hids d).mpr hd3)
  · rintro ⟨t, ht, d, hd, hdnot⟩ hall
    apply hdnot
    rw [← buildNodes_lookup_isSome tasks hids d]
    refine hall ((fun p => (p.1, p.2.dependencies)) (t.id, mkNode t)) ?_ d ?_
    · apply List.mem_map_of_mem
      rw [buildNodes_eq_map tasks hids]
      exact List.mem_map_of_mem _ ht
    · show d ∈ t.dependencies.foldl insertUniq []
      rw [mem_foldl_insertUniq]
      exact Or.inr hd

theorem buildGraph_ok_facts (tasks : List TaskWithDependencies)
    (hids : (taskIds tasks).Nodup) (nodesF : List (String × TaskNode))
    (hok : buildGraph tasks = .ok nodesF) :
    keysOf nodesF = taskIds tasks ∧
      (∀ x y, nodeEdge nodesF x y ↔ depEdge tasks x y) := by
  unfold buildGraph at hok
  rcases addAllDependents_preserves _ _ _ hok with ⟨hdeps, hkeys⟩
  have hkeys0 : keysOf (buildNodes tasks) = taskIds tasks := by
    rw [buildNodes_eq_map tasks hids]
    unfold keysOf taskIds
    rw [List.map_map]
    rfl
  constructor
  · rw [hkeys, hkeys0]
  · intro x y
    unfold nodeEdge
    rw [edge_of_depsMap_eq (hdeps x) y]
    rw [buildNodes_eq_map tasks hids]
    constructor
    · rintro ⟨n, hl, hy⟩
      rcases lookup_tasks_map_mem tasks x n hl with ⟨t, ht, htx, hn⟩
      refine ⟨t, ht, htx, ?_⟩
      rw [hn] at hy
      exact ((mem_foldl_insertUniq t.dependencies [] y).mp hy).resolve_left (by simp)
    · rintro ⟨t, ht, htx, hy⟩
      refine ⟨mkNode t, ?_, ?_⟩
      · rw [← htx]
        exact lookup_tasks_map_self tasks hids t ht
      · rw [show (mkNode t).dependencies = t.dependencies.foldl insertUniq [] from rfl,
          mem_foldl_insertUniq]
        exact Or.inr hy

theorem dfsDeps_cons (nodes : List (String × TaskNode)) (fuel : Nat) (visiting : List String)
    (d : String) (ds : List String) (visited : List String) :
    dfsDeps nodes fuel visiting (d :: ds) visited =
      match dfsVisit nodes fuel d visiting visited with
      | .error e => .error e
      | .ok v => dfsDeps nodes fuel visiting ds v := by
  unfold dfsDeps
  rw [List.foldlM_cons]
  cases dfsVisit nodes fuel d visiting visited <;> rfl

theorem dfsVisit_succ (nodes : List (String × TaskNode)) (fuel : Nat) (nodeId : String)
    (visiting visited : List String) :
    dfsVisit nodes (fuel+1) nodeId visiting visited =
      (if nodeId ∈ visiting then .error (DfsErr.cycle (visiting.reverse ++ [nodeId]))
      else if nodeId ∈ visited then .ok visited
      else
        match dfsDeps nodes fuel (nodeId :: visiting) (depsOf nodes nodeId) visited with
        | .error e => .error e
        | .ok v => .ok (nodeId :: v)) := rfl

theorem dfsDeps_ok_inv_of (nodes : List (String × TaskNode)) (fuel : Nat)
    (hvisit : ∀ (c : String) (V S S' : List String), dfsVisit nodes fuel c V S = .ok S' →
      (∃ pre, S' = pre ++ S ∧ ∀ x ∈ pre, x ∉ V) ∧ c ∈ S' ∧
        (S.Nodup → S'.Nodup) ∧ (TopoList nodes S → TopoList nodes S')) :
    ∀ (ds : List String) (V S S' : List String),
      dfsDeps nodes fuel V ds S = .ok S' →
      (∃ pre, S' = pre ++ S ∧ ∀ x ∈ pre, x ∉ V) ∧ (∀ d ∈ ds, d ∈ S') ∧
        (S.Nodup → S'.Nodup) ∧ (TopoList nodes S → TopoList nodes S') := by
  intro ds
  induction ds with
  | nil =>
    intro V S S' h
    replace h : Except.ok (ε := DfsErr) S = Except.ok S' := h
    injection h with h2
    subst h2
    exact ⟨⟨[], rfl, by simp⟩, by simp, fun hn => hn, fun ht => ht⟩
  | cons d ds ih =>
    intro V S S' h
    rw [dfsDeps_cons] at h
    cases hv : dfsVisit nodes fuel d V S with
    | error e => rw [hv] at h; cases h
    | ok S1 =>
      rw [hv] at h
      replace h : dfsDeps nodes fuel V ds S1 = .ok S' := h
      rcases hvisit d V S S1 hv with ⟨⟨pre1, hS1, hpre1⟩, hd1, hnd1, ht1⟩
      rcases ih V S1 S' h with ⟨⟨pre2, hS2, hpre2⟩, hds, hnd2, ht2⟩
      refine ⟨⟨pre2 ++ pre1, ?_, ?_⟩, ?_, fun hn => hnd2 (hnd1 hn), fun ht => ht2 (ht1 ht)⟩
      · rw [hS2, hS1, List.append_assoc]
      · intro x hx
        rcases List.mem_append.mp hx with h1 | h2
        · exact hpre2 x h1
        · exact hpre1 x h2
      · intro e he
        rcases List.mem_cons.mp he with h1 | h2
        · rw [h1, hS2]
          exact List.mem_append_right pre2 hd1
        · exact hds e h2

theorem dfsVisit_ok_inv (nodes : List (String × TaskNode)) :
    ∀ (fuel : Nat) (c : String) (V S S' : List String),
      dfsVisit nodes fuel c V S = .ok S' →
      (∃ pre, S' = pre ++ S ∧ ∀ x ∈ pre, x ∉ V) ∧ c ∈ S' ∧
        (S.Nodup → S'.Nodup) ∧ (TopoList nodes S → TopoList nodes S') := by
  intro fuel
  induction fuel with
  | zero => intro c V S S' h; cases h
  | succ f ih =>
    intro c V S S' h
    rw [dfsVisit_succ] at h
    by_cases hcv : c ∈ V
    · rw [if_pos hcv] at h; cases h
    · rw [if_neg hcv] at h
      by_cases hcs : c ∈ S
      · rw [if_pos hcs] at h
        injection h with h2
        subst h2
        exact ⟨⟨[], rfl, by simp⟩, hcs, fun hn => hn, fun ht => ht⟩
      · rw [if_neg hcs] at h
        cases hd : dfsDeps nodes f (c :: V) (depsOf nodes c) S with
        | error e => rw [hd] at h; cases h
        | ok Sk =>
          rw [hd] at h
          injection h with h2
          subst h2
          rcases dfsDeps_ok_inv_of nodes f ih (depsOf nodes c) (c :: V) S Sk hd with
            ⟨⟨pre, hSk, hpre⟩, hdeps, hnd, ht⟩
          refine ⟨⟨c :: pre, ?_, ?_⟩, List.mem_cons_self c Sk, ?_, ?_⟩
          · rw [List.cons_append, hSk]
          · intro x hx
            rcases List.mem_cons.mp hx with h1 | h2
            · rw [h1]; exact hcv
            · intro hxv
              exact hpre x h2 (List.mem_cons_of_mem c hxv)
          · intro hndS
            have hcSk : c ∉ Sk := by
              rw [hSk]
              intro hmem
              rcases List.mem_append.mp hmem with h1 | h2
              · exact hpre c h1 (List.mem_cons_self c V)
              · exact hcs h2
            exact List.nodup_cons.mpr ⟨hcSk, hnd hndS⟩
          · intro htS
            apply TopoList.cons
            · intro y hy
              rcases (show ∃ n, nodes.lookup c = some n ∧ y ∈ n.dependencies from hy) with
                ⟨n, hln, hyn⟩
              apply hdeps y
              unfold depsOf
              rw [hln]
              exact hyn
            · exact ht htS

theorem validateAll_ok_reaches (nodes : List (String × TaskNode)) :
    ∀ (ks S : List String), validateAll nodes ks S = .ok () →
      S.Nodup → TopoList nodes S →
      ∀ x ∈ ks, ∃ Sf, Sf.Nodup ∧ TopoList nodes Sf ∧ x ∈ Sf := by
  intro ks
  induction ks with
  | nil => intro S _ _ _ x hx; simp at hx
  | cons k rest ih =>
    intro S h hnd htp x hx
    unfold validateAll at h
    by_cases hks : k ∈ S
    · rw [if_pos hks] at h
      rcases List.mem_cons.mp hx with h1 | h2
      · exact ⟨S, hnd, htp, h1 ▸ hks⟩
      · exact ih S h hnd htp x h2
    · rw [if_neg hks] at h
      cases hv : dfsVisit nodes (nodes.length + 1) k [] S with
      | error e => rw [hv] at h; cases h
      | ok v =>
        rw [hv] at h
        replace h : validateAll nodes rest v = .ok () := h
        rcases dfsVisit_ok_inv nodes (nodes.length + 1) k [] S v hv with ⟨_, hk, hnd2, htp2⟩
        rcases List.mem_cons.mp hx with h1 | h2
        · exact ⟨v, hnd2 hnd, htp2 htp, h1 ▸ hk⟩
        · exact ih v h (hnd2 hnd) (htp2 htp) x h2

theorem topo_edge_mem (nodes : List (String × TaskNode)) :
    ∀ (l : List String), TopoList nodes l → ∀ x ∈ l, ∀ y, nodeEdge nodes x y → y ∈ l := by
  intro l
  induction l with
  | nil => intro _ x hx; simp at hx
  | cons a t ih =>
    intro ht x hx y hxy
    cases ht with
    | cons hedge htail =>
      rcases List.mem_cons.mp hx with h1 | h2
      · refine List.mem_cons_of_mem a (hedge y ?_)
        rw [h1] at hxy
        exact hxy
      · exact List.mem_cons_of_mem a (ih htail x h2 y hxy)

theorem topo_reach_mem (nodes : List (String × TaskNode)) (l : List String)
    (ht : TopoList nodes l) (x y : String) (hx : x ∈ l)
    (hr : Relation.TransGen (nodeEdge nodes) x y) : y ∈ l := by
  induction hr with
  | single h => exact topo_edge_mem nodes l ht x hx _ h
  | tail hxb hby ih => exact topo_edge_mem nodes l ht _ ih _ hby

theorem topo_no_cycle (nodes : List (String × TaskNode)) :
    ∀ (l : List String), TopoList nodes l → l.Nodup →
      ∀ x ∈ l, ¬ Relation.TransGen (nodeEdge nodes) x x := by
  intro l
  induction l with
  | nil => intro _ _ x hx; simp at hx
  | cons a t ih =>
    intro ht hnd x hx hcyc
    cases ht with
    | cons hedge htail =>
      have hat : a ∉ t := (List.nodup_cons.mp hnd).1
      have hndt : t.Nodup := (List.nodup_cons.mp hnd).2
      rcases List.mem_cons.mp hx with h1 | h2
      · rw [h1] at hcyc
        rcases Relation.TransGen.head'_iff.mp hcyc with ⟨b, hab, hba⟩
        have hbt : b ∈ t := hedge b hab
        rcases Relation.reflTransGen_iff_eq_or_transGen.mp hba with h3 | h3
        · rw [h3] at hat
          exact hat hbt
        · exact hat (topo_reach_mem nodes t htail b a hbt h3)
      · exact ih htail hndt x h2 hcyc

theorem vchain_transGen (nodes : List (String × TaskNode)) :
    ∀ (V : List String) (z c : String), VChain nodes z V → c ∈ V →
      Relation.TransGen (nodeEdge nodes) c z := by
  intro V
  induction V with
  | nil => intro z c _ hc; simp at hc
  | cons p rest ih =>
    intro z c hch hc
    have h2 : nodeEdge nodes p z ∧ VChain nodes p rest := hch
    rcases List.mem_cons.mp hc with h1 | h3
    · rw [h1]
      exact Relation.TransGen.single h2.1
    · exact Relation.TransGen.tail (ih p c h2.2 h3) h2.1

theorem vchain_cycle (nodes : List (String × TaskNode)) (c : String) (V : List String)
    (hch : VChain nodes c V) (hc : c ∈ V) :
    ∃ x, Relation.TransGen (nodeEdge nodes) x x :=
  ⟨c, vchain_transGen nodes V c c hch hc⟩

theorem dfsDeps_cycle_sound_of (nodes : List (String × TaskNode)) (fuel : Nat)
    (hvisit : ∀ (c : String) (V S p : List String),
      dfsVisit nodes fuel c V S = .error (DfsErr.cycle p) → VChain nodes c V →
      ∃ x, Relation.TransGen (nodeEdge nodes) x x) :
    ∀ (ds : List String) (c0 : String) (V0 S p : List String),
      dfsDeps nodes fuel (c0 :: V0) ds S = .error (DfsErr.cycle p) →
      (∀ d ∈ ds, nodeEdge nodes c0 d) → VChain nodes c0 V0 →
      ∃ x, Relation.TransGen (nodeEdge nodes) x x := by
  intro ds
  induction ds with
  | nil =>
    intro c0 V0 S p h _ _
    cases h
  | cons d ds ih =>
    intro c0 V0 S p h hds hch
    rw [dfsDeps_cons] at h
    cases hv : dfsVisit nodes fuel d (c0 :: V0) S with
    | error e =>
      rw [hv] at h
      replace h : Except.error (α := List String) e = .error (DfsErr.cycle p) := h
      injection h with h2
      subst h2
      have hc2 : nodeEdge nodes c0 d ∧ VChain nodes c0 V0 :=
        ⟨hds d (List.mem_cons_self d ds), hch⟩
      exact hvisit d (c0 :: V0) S p hv hc2
    | ok S1 =>
      rw [hv] at h
      replace h : dfsDeps nodes fuel (c0 :: V0) ds S1 = .error (DfsErr.cycle p) := h
      exact ih c0 V0 S1 p h (fun e he => hds e (List.mem_cons_of_mem d he)) hch

theorem dfsVisit_cycle_sound (nodes : List (String × TaskNode)) :
    ∀ (fuel : Nat) (c : String) (V S p : List String),
      dfsVisit nodes fuel c V S = .error (DfsErr.cycle p) → VChain nodes c V →
      ∃ x, Relation.TransGen (nodeEdge nodes) x x := by
  intro fuel
  induction fuel with
  | zero =>
    intro c V S p h _
    replace h : Except.error (α := List String) DfsErr.nofuel = .error (DfsErr.cycle p) := h
    injection h with h2
    cases h2
  | succ f ih =>
    intro c V S p h hch
    rw [dfsVisit_succ] at h
    by_cases hcv : c ∈ V
    · exact vchain_cycle nodes c V hch hcv
    · rw [if_neg hcv] at h
      by_cases hcs : c ∈ S
      · rw [if_pos hcs] at h; cases h
      · rw [if_neg hcs] at h
        cases hd : dfsDeps nodes f (c :: V) (depsOf nodes c) S with
        | ok v => rw [hd] at h; cases h
        | error e =>
          rw [hd] at h
          replace h : Except.error (α := List String) e = .error (DfsErr.cycle p) := h
          injection h with h2
          subst h2
          refine dfsDeps_cycle_sound_of nodes f ih (depsOf nodes c) c V S p hd ?_ hch
          intro e2 he2
          unfold depsOf at he2
          cases hl : nodes.lookup c with
          | none => rw [hl] at he2; simp at he2
          | some n =>
            rw [hl] at he2
            exact ⟨n, hl, he2⟩

theorem validateAll_cycle_sound (nodes : List (String × TaskNode)) :
    ∀ (ks S p : List String),
      validateAll nodes ks S = .error (DfsErr.cycle p) →
      ∃ x, Relation.TransGen (nodeEdge nodes) x x := by
  intro ks
  induction ks with
  | nil => intro S p h; cases h
  | cons k rest ih =>
    intro S p h
    unfold validateAll at h
    by_cases hks : k ∈ S
    · rw [if_pos hks] at h
      exact ih S p h
    · rw [if_neg hks] at h
      cases hv : dfsVisit nodes (nodes.length + 1) k [] S with
      | error e =>
        rw [hv] at h
        replace h : Except.error (α := Unit) e = .error (DfsErr.cycle p) := h
        injection h with h2
        subst h2
        exact dfsVisit_cycle_sound nodes (nodes.length + 1) k [] S p hv trivial
      | ok v =>
        rw [hv] at h
        exact ih v p h

theorem dfsDeps_no_nofuel_of (nodes : List (String × TaskNode)) (fuel : Nat)
    (hvisit : ∀ (c : String) (V S : List String), c ∈ keysOf nodes → V.Nodup →
      (∀ v ∈ V, v ∈ keysOf nodes) → (keysOf nodes).length + 1 ≤ fuel + V.length →
      dfsVisit nodes fuel c V S ≠ .error DfsErr.nofuel) :
    ∀ (ds : List String) (V S : List String), (∀ d ∈ ds, d ∈ keysOf nodes) →
      V.Nodup → (∀ v ∈ V, v ∈ keysOf nodes) →
      (keysOf nodes).length + 1 ≤ fuel + V.length →
      dfsDeps nodes fuel V ds S ≠ .error DfsErr.nofuel := by
  intro ds
  induction ds with
  | nil =>
    intro V S _ _ _ _ h
    cases h
  | cons d ds ih =>
    intro V S hds hnd hsub hfuel h
    rw [dfsDeps_cons] at h
    cases hv : dfsVisit nodes fuel d V S with
    | error e =>
      rw [hv] at h
      replace h : Except.error (α := List String) e = .error DfsErr.nofuel := h
      injection h with h2
      subst h2
      exact hvisit d V S (hds d (List.mem_cons_self d ds)) hnd hsub hfuel hv
    | ok S1 =>
      rw [hv] at h
      exact ih V S1 (fun e he => hds e (List.mem_cons_of_mem d he)) hnd hsub hfuel h

theorem dfsVisit_no_nofuel (nodes : List (String × TaskNode))
    (hclosed : ∀ (x : String), ∀ d ∈ depsOf nodes x, d ∈ keysOf nodes) :
    ∀ (fuel : Nat) (c : String) (V S : List String), c ∈ keysOf nodes → V.Nodup →
      (∀ v ∈ V, v ∈ keysOf nodes) → (keysOf nodes).length + 1 ≤ fuel + V.length →
      dfsVisit nodes fuel c V S ≠ .error DfsErr.nofuel := by
  intro fuel
  induction fuel with
  | zero =>
    intro c V S hc hnd hsub hfuel h
    have hle := nodup_subset_length_le V (keysOf nodes) hnd hsub
    omega
  | succ f ih =>
    intro c V S hc hnd hsub hfuel h
    rw [dfsVisit_succ] at h
    by_cases hcv : c ∈ V
    · rw [if_pos hcv] at h
      injection h with h2
      cases h2
    · rw [if_neg hcv] at h
      by_cases hcs : c ∈ S
      · rw [if_pos hcs] at h; cases h
      · rw [if_neg hcs] at h
        cases hd : dfsDeps nodes f (c :: V) (depsOf nodes c) S with
        | ok v => rw [hd] at h; cases h
        | error e =>
          rw [hd] at h
          replace h : Except.error (α := List String) e = .error DfsErr.nofuel := h
          injection h with h2
          subst h2
          refine dfsDeps_no_nofuel_of nodes f ih (depsOf nodes c) (c :: V) S
            (hclosed c) ?_ ?_ ?_ hd
          · exact List.nodup_cons.mpr ⟨hcv, hnd⟩
          · intro v hv
            rcases List.mem_cons.mp hv with h1 | h2
            · rw [h1]; exact hc
            · exact hsub v h2
          · simp only [List.length_cons]
            omega

theorem validateAll_no_nofuel (nodes : List (String × TaskNode))
    (hclosed : ∀ (x : String), ∀ d ∈ depsOf nodes x, d ∈ keysOf nodes) :
    ∀ (ks S : List String), (∀ k ∈ ks, k ∈ keysOf nodes) →
      validateAll nodes ks S ≠ .error DfsErr.nofuel := by
  intro ks
  induction ks with
  | nil => intro S _ h; cases h
  | cons k rest ih =>
    intro S hks h
    unfold validateAll at h
    by_cases hkS : k ∈ S
    · rw [if_pos hkS] at h
      exact ih S (fun e he => hks e (List.mem_cons_of_mem k he)) h
    · rw [if_neg hkS] at h
      cases hv : dfsVisit nodes (nodes.length + 1) k [] S with
      | error e =>
        rw [hv] at h
        replace h : Except.error (α := Unit) e = .error DfsErr.nofuel := h
        injection h with h2
        subst h2
        refine dfsVisit_no_nofuel nodes hclosed (nodes.length + 1) k [] S
          (hks k (List.mem_cons_self k rest)) List.nodup_nil (by simp) ?_ hv
        have hlen : (keysOf nodes).length = nodes.length := List.length_map nodes _
        omega
      | ok v =>
        rw [hv] at h
        exact ih v (fun e he => hks e (List.mem_cons_of_mem k he)) h

/-- C5: under the TaskSpec invariant that ids are unique, `TaskGraph`
construction fails exactly when some task lists a dependency id absent
from the task list, or the dependency relation contains a cycle (a
self-loop being the one-step cycle); on any task list free of dangling
dependencies and cycles, construction succeeds. -/
theorem taskGraph_invalid_iff (tasks : List TaskWithDependencies)
    (hids : (taskIds tasks).Nodup) :
    (∃ e, taskGraphNew tasks = .error e) ↔ (hasDanglingDep tasks ∨ hasDepCycle tasks) := by
  constructor
  · rintro ⟨e, he⟩
    unfold taskGraphNew at he
    cases hb : buildGraph tasks with
    | error eb =>
      left
      exact (buildGraph_error_iff tasks hids).mp ⟨eb, hb⟩
    | ok nodesF =>
      rw [hb] at he
      simp only [] at he
      rcases buildGraph_ok_facts tasks hids nodesF hb with ⟨hkeys, hedge⟩
      have hnd : ¬ hasDanglingDep tasks := by
        intro hdang
        rcases (buildGraph_error_iff tasks hids).mpr hdang with ⟨e2, he2⟩
        rw [hb] at he2
        cases he2
      have hclosed : ∀ (x : String), ∀ d ∈ depsOf nodesF x, d ∈ keysOf nodesF := by
        intro x d hd
        unfold depsOf at hd
        cases hl : nodesF.lookup x with
        | none => rw [hl] at hd; simp at hd
        | some n =>
          rw [hl] at hd
          rcases (hedge x d).mp ⟨n, hl, hd⟩ with ⟨t, ht, htx, hdt⟩
          rw [hkeys]
          by_contra hnot
          exact hnd ⟨t, ht, d, hdt, hnot⟩
      cases hv : validateAll nodesF (nodesF.map (fun p => p.1)) [] with
      | ok u =>
        rw [hv] at he
        simp only [] at he
        cases he
      | error de =>
        cases de with
        | cycle p =>
          right
          rcases validateAll_cycle_sound nodesF _ [] p hv with ⟨x, hx⟩
          exact ⟨x, Relation.TransGen.mono (fun a b hab => (hedge a b).mp hab) hx⟩
        | nofuel =>
          exact absurd hv (validateAll_no_nofuel nodesF hclosed _ [] (fun k hk => hk))
  · intro h
    cases hb : buildGraph tasks with
    | error eb =>
      refine ⟨eb, ?_⟩
      unfold taskGraphNew
      rw [hb]
    | ok nodesF =>
      rcases buildGraph_ok_facts tasks hids nodesF hb with ⟨hkeys, hedge⟩
      cases h with
      | inl hdang =>
        exfalso
        rcases (buildGraph_error_iff tasks hids).mpr hdang with ⟨e2, he2⟩
        rw [hb] at he2
        cases he2
      | inr hcyc =>
        cases hv : validateAll nodesF (nodesF.map (fun p => p.1)) [] with
        | error de =>
          cases de with
          | cycle p =>
            refine ⟨("Circular dependency detected: " ++ String.intercalate (" -> ") p), ?_⟩
            unfold taskGraphNew
            rw [hb]
            simp only []
            rw [hv]
          | nofuel =>
            refine ⟨("recursion limit"), ?_⟩
            unfold taskGraphNew
            rw [hb]
            simp only []
            rw [hv]
        | ok u =>
          exfalso
          rcases hcyc with ⟨x, hx⟩
          have hxE : Relation.TransGen (nodeEdge nodesF) x x :=
            Relation.TransGen.mono (fun a b hab => (hedge a b).mpr hab) hx
          have hxKey : x ∈ keysOf nodesF := by
            rcases Relation.TransGen.head'_iff.mp hxE with ⟨b, hab, _⟩
            rcases (show ∃ n, nodesF.lookup x = some n ∧ b ∈ n.dependencies from hab) with
              ⟨n, hl, _⟩
            have hsome : (nodesF.lookup x).isSome = true := by rw [hl]; rfl
            rcases (lookup_isSome_iff x nodesF).mp hsome with ⟨q, hq, hqk⟩
            rw [← hqk]
            exact List.mem_map_of_mem (fun r => r.1) hq
          cases u
          have hxKey2 : x ∈ nodesF.map (fun p => p.1) := hxKey
          rcases validateAll_ok_reaches nodesF (nodesF.map (fun p => p.1)) [] hv
            List.nodup_nil TopoList.nil x hxKey2 with ⟨Sf, hndf, htf, hxf⟩
          exact topo_no_cycle nodesF Sf htf hndf x hxf hxE

/-- Witness for `taskGraph_invalid_iff`: the unique-id hypothesis holds
for the self-loop list `[{id := A, deps := [A]}]`, and the theorem yields
its rejection from the one-step dependency cycle. -/
theorem taskGraph_invalid_iff_witness :
    (taskIds [selfLoopTask]).Nodup ∧ (∃ e, taskGraphNew [selfLoopTask] = .error e) := by
  refine ⟨by decide, ?_⟩
  apply (taskGraph_invalid_iff [selfLoopTask] (by decide)).mpr
  right
  show ∃ x, Relation.TransGen (depEdge [selfLoopTask]) x x
  refine ⟨"A", Relation.TransGen.single ?_⟩
  show ∃ t ∈ [selfLoopTask], t.id = "A" ∧ "A" ∈ t.dependencies
  exact ⟨selfLoopTask, List.mem_cons_self _ _, rfl, by decide⟩
